import Mathlib

/-!
# micropoll: registration protocol and dispatch step

Shallow embedding of `micropoll.h`.

* Pointers to functions and `void *` contexts are addresses (`Nat`), the null
  pointer being `0`.
* `int` and `short` values are `Int`; the code performs no arithmetic on them
  besides the loop counters, so no overflow can occur.
* The arrays `fd[MICROPOLL_MAX_FD]` and `pollout[MICROPOLL_MAX_POLLOUT]` are
  lists; the capacity is the length of the list, and a loop
  `for (i = 0; i < CAPACITY; i++)` is a traversal of the list that carries the
  index `i` along.  `micropoll_wf N M` says that a reactor has the layout of a
  build with `MICROPOLL_MAX_FD = N` and `MICROPOLL_MAX_POLLOUT = M`.
* `errno` is threaded explicitly: every operation takes the value of `errno`
  before the call and returns the value after it.
* The handlers behind the function pointers are a parameter `env`: the handler at
  an address is a function from the reactor it is called on (with `errno`, `fd`
  and `data`) to its return value and the reactor and `errno` it leaves.  The
  system call `poll` is a parameter too, an oracle from the array passed to the
  return value, `errno` and `revents`.  `micropoll` records the handler
  invocations and the `poll` calls it makes.
-/

namespace Micropoll

/-! ## Constants of the platform headers (`<poll.h>`, `<errno.h>`; Linux values) -/

/-- Value of `POLLIN` in `<poll.h>` (Linux). -/
def POLLIN : Int := 1
/-- Value of `POLLOUT` in `<poll.h>` (Linux). -/
def POLLOUT : Int := 4
/-- Value of `POLLERR` in `<poll.h>` (Linux). -/
def POLLERR : Int := 8
/-- Value of `POLLNVAL` in `<poll.h>` (Linux). -/
def POLLNVAL : Int := 32
/-- Value of `EINTR` in `<errno.h>` (Linux). -/
def EINTR : Int := 4
/-- Value of `EAGAIN` in `<errno.h>` (Linux). -/
def EAGAIN : Int := 11
/-- Value of `EWOULDBLOCK` in `<errno.h>` (Linux, the same as `EAGAIN`). -/
def EWOULDBLOCK : Int := 11
/-- Value of `EINVAL` in `<errno.h>` (Linux). -/
def EINVAL : Int := 22
/-- Value of `ENOBUFS` in `<errno.h>` (Linux). -/
def ENOBUFS : Int := 105

/-- Default of `MICROPOLL_MAX_FD` (line 5). -/
def MICROPOLL_MAX_FD : Nat := 8
/-- Default of `MICROPOLL_MAX_POLLOUT` (line 13). -/
def MICROPOLL_MAX_POLLOUT : Nat := 4

/-! ## Data model (lines 24-39) -/

/-- The record `struct micropoll_cb`: handler address and context address. -/
structure struct_micropoll_cb where
  fn : Nat
  data : Nat
deriving DecidableEq, Repr

/-- The record `struct micropoll_fd`: one slot of the descriptor table. -/
structure struct_micropoll_fd where
  set : Int
  fd : Int
  pollin : struct_micropoll_cb
  pollerr : struct_micropoll_cb
  pollout : List struct_micropoll_cb
deriving DecidableEq, Repr

/-- The record `struct micropoll`: the reactor, an array of slots. -/
structure struct_micropoll where
  fd : List struct_micropoll_fd
deriving DecidableEq, Repr

/-- The function `micropoll_cb` (lines 41-48). -/
def micropoll_cb (fn data : Nat) : struct_micropoll_cb :=
  { fn := fn, data := data }

/-- The all-zero callback `(struct micropoll_cb){0}`. -/
def cb_zero : struct_micropoll_cb :=
  { fn := 0, data := 0 }

/-- An all-zero slot with a write queue of `M` entries. -/
def fd_zero (M : Nat) : struct_micropoll_fd :=
  { set := 0, fd := 0, pollin := cb_zero, pollerr := cb_zero,
    pollout := List.replicate M cb_zero }

/-- A zero-initialised reactor of `N` slots with write queues of `M` entries. -/
def micropoll_zero (N M : Nat) : struct_micropoll :=
  { fd := List.replicate N (fd_zero M) }

/-- Layout of a build with `MICROPOLL_MAX_FD = N`, `MICROPOLL_MAX_POLLOUT = M`. -/
def micropoll_wf (N M : Nat) (mp : struct_micropoll) : Prop :=
  mp.fd.length = N ∧ ∀ s ∈ mp.fd, s.pollout.length = M

/-! ## `micropoll_set_cb` (lines 57-90) -/

/-- The loop of lines 77-83 over the write queue, from index `i` with the
current value of `empty`.  `none` is the early `return 0` of line 79 (an equal
callback was found); `some empty` is the value of `empty` when the loop ends. -/
def micropoll_set_cb_scan (cb : struct_micropoll_cb) :
    List struct_micropoll_cb → Nat → Int → Option Int
  | [], _, empty => some empty
  | q :: rest, i, empty =>
    if q.fn = cb.fn ∧ q.data = cb.data then none
    else if empty = -1 then micropoll_set_cb_scan cb rest (i + 1) (i : Int)
    else micropoll_set_cb_scan cb rest (i + 1) empty

/-- What `micropoll_set_cb` leaves behind: return value, `errno`, and the slot
behind the pointer `mfd` (`none` for a null pointer). -/
structure set_cb_result where
  ret : Int
  errno : Int
  mfd : Option struct_micropoll_fd
deriving DecidableEq, Repr

/-- The function `micropoll_set_cb` (lines 57-90). -/
def micropoll_set_cb (mfd : Option struct_micropoll_fd) (errno : Int) (event : Int)
    (cb : struct_micropoll_cb) : set_cb_result :=
  match mfd with
  | none => { ret := -1, errno := errno, mfd := none }
  | some m =>
    if event = 0 then { ret := -1, errno := errno, mfd := some m }
    else if event = POLLIN then
      { ret := 0, errno := errno, mfd := some { m with pollin := cb } }
    else if event = POLLERR then
      { ret := 0, errno := errno, mfd := some { m with pollerr := cb } }
    else if event ≠ POLLOUT then
      { ret := -1, errno := EINVAL, mfd := some m }
    else
      match micropoll_set_cb_scan cb m.pollout 0 (-1) with
      | none => { ret := 0, errno := errno, mfd := some m }
      | some empty =>
        if empty = -1 then { ret := -1, errno := ENOBUFS, mfd := some m }
        else
          { ret := 0, errno := errno,
            mfd := some { m with pollout := m.pollout.set empty.toNat cb } }

/-! ## `micropoll_set` (lines 92-121) -/

/-- How the loop of lines 104-111 ends: with the `return` of line 107 at slot
`i`, or by running to the end with the final value of `empty`. -/
inductive set_scan where
  | found (i : Nat)
  | finished (empty : Int)
deriving DecidableEq, Repr

/-- The loop of lines 104-111 over the table, from index `i` with the current
value of `empty`. -/
def micropoll_set_scan (fd : Int) : List struct_micropoll_fd → Nat → Int → set_scan
  | [], _, empty => set_scan.finished empty
  | s :: rest, i, empty =>
    if s.set ≠ 0 then
      if s.fd = fd then set_scan.found i
      else micropoll_set_scan fd rest (i + 1) empty
    else if empty = -1 then micropoll_set_scan fd rest (i + 1) (i : Int)
    else micropoll_set_scan fd rest (i + 1) empty

/-- What a registration call leaves behind: return value, `errno`, reactor. -/
structure set_result where
  ret : Int
  errno : Int
  mp : struct_micropoll
deriving DecidableEq, Repr

/-- Write back through the pointer `&mp->fd[i]`. -/
def store_fd (mp : struct_micropoll) (i : Nat) (mfd : Option struct_micropoll_fd) :
    struct_micropoll :=
  match mfd with
  | none => mp
  | some m => { fd := mp.fd.set i m }

/-- The call `micropoll_set_cb(&mp->fd[i], event, cb)` of lines 107 and 120. -/
def set_cb_at (mp : struct_micropoll) (i : Nat) (errno event : Int)
    (cb : struct_micropoll_cb) : set_result :=
  let r := micropoll_set_cb mp.fd[i]? errno event cb
  { ret := r.ret, errno := r.errno, mp := store_fd mp i r.mfd }

/-- The function `micropoll_set` (lines 92-121); `M` is `MICROPOLL_MAX_POLLOUT`,
the size of the write queue of the compound literal of lines 116-119. -/
def micropoll_set (M : Nat) (mp : struct_micropoll) (errno : Int) (fd : Int) (event : Int)
    (fn data : Nat) : set_result :=
  let cb := micropoll_cb fn data
  if fd < 0 then { ret := -1, errno := EINVAL, mp := mp }
  else
    match micropoll_set_scan fd mp.fd 0 (-1) with
    | set_scan.found i => set_cb_at mp i errno event cb
    | set_scan.finished empty =>
      if empty = -1 then { ret := -1, errno := ENOBUFS, mp := mp }
      else
        set_cb_at { fd := mp.fd.set empty.toNat { fd_zero M with set := 1, fd := fd } }
          empty.toNat errno event cb

/-- The function `micropoll_set_in` (lines 189-194). -/
def micropoll_set_in (M : Nat) (mp : struct_micropoll) (errno : Int) (fd : Int)
    (fn data : Nat) : set_result :=
  micropoll_set M mp errno fd POLLIN fn data

/-- The function `micropoll_set_out` (lines 196-201). -/
def micropoll_set_out (M : Nat) (mp : struct_micropoll) (errno : Int) (fd : Int)
    (fn data : Nat) : set_result :=
  micropoll_set M mp errno fd POLLOUT fn data

/-- The function `micropoll_set_err` (lines 203-208). -/
def micropoll_set_err (M : Nat) (mp : struct_micropoll) (errno : Int) (fd : Int)
    (fn data : Nat) : set_result :=
  micropoll_set M mp errno fd POLLERR fn data

/-! ## Sequences of registration calls -/

/-- One call of the registration interface. -/
inductive reg_call where
  | set (fd event : Int) (fn data : Nat)
  | set_in (fd : Int) (fn data : Nat)
  | set_out (fd : Int) (fn data : Nat)
  | set_err (fd : Int) (fn data : Nat)
deriving DecidableEq, Repr

/-- Perform one registration call. -/
def reg_step (M : Nat) (mp : struct_micropoll) (errno : Int) : reg_call → set_result
  | reg_call.set fd event fn data => micropoll_set M mp errno fd event fn data
  | reg_call.set_in fd fn data => micropoll_set_in M mp errno fd fn data
  | reg_call.set_out fd fn data => micropoll_set_out M mp errno fd fn data
  | reg_call.set_err fd fn data => micropoll_set_err M mp errno fd fn data

/-- Perform a sequence of registration calls, first call first, starting from
the outcome `r` of what came before; the result carries the return value of the
last call. -/
def reg_run (M : Nat) : set_result → List reg_call → set_result
  | r, [] => r
  | r, c :: cs => reg_run M (reg_step M r.mp r.errno c) cs

/-- The state before any call: a zero-initialised reactor, `errno = e`. -/
def reg_init (N M : Nat) (e : Int) : set_result :=
  { ret := 0, errno := e, mp := micropoll_zero N M }

/-! ## Predicates of the specification -/

/-- No two active slots (`set != 0`) hold the same descriptor: any two slots at
different positions of the table that are both active differ in `fd`. -/
def micropoll_unique (mp : struct_micropoll) : Prop :=
  mp.fd.Pairwise (fun a b => a.set ≠ 0 → b.set ≠ 0 → a.fd ≠ b.fd)

instance (mp : struct_micropoll) : Decidable (micropoll_unique mp) :=
  inferInstanceAs
    (Decidable (mp.fd.Pairwise
      (fun (a b : struct_micropoll_fd) => a.set ≠ 0 → b.set ≠ 0 → a.fd ≠ b.fd)))

/-- A reactor of the default build after two registrations: descriptor 3 for
read, descriptor 5 for write. -/
def mp_two : struct_micropoll :=
  (reg_run 4 (reg_init 8 4 0) [reg_call.set_in 3 7 9, reg_call.set_out 5 8 9]).mp

/-- The default build with descriptors 0..7 registered for read: a full table. -/
def mp_full : struct_micropoll :=
  (reg_run 4 (reg_init 8 4 0)
    [reg_call.set_in 0 1 0, reg_call.set_in 1 1 0, reg_call.set_in 2 1 0,
     reg_call.set_in 3 1 0, reg_call.set_in 4 1 0, reg_call.set_in 5 1 0,
     reg_call.set_in 6 1 0, reg_call.set_in 7 1 0]).mp

/-- A slot whose write queue holds the callbacks `A = (7, 9)` and nothing else. -/
def fd_one_writer : struct_micropoll_fd :=
  { fd_zero 4 with set := 1, fd := 5, pollout := [⟨7, 9⟩, cb_zero, cb_zero, cb_zero] }

/-- A slot whose four write-queue positions are all occupied. -/
def fd_full_queue : struct_micropoll_fd :=
  { fd_zero 4 with set := 1, fd := 5, pollout := [⟨1, 1⟩, ⟨2, 2⟩, ⟨3, 3⟩, ⟨4, 4⟩] }

/-! ## `micropoll_retry` (lines 50-55) -/

/-- Value of `EBADF` in `<errno.h>` (Linux). -/
def EBADF : Int := 9

/-- The function `micropoll_retry` (lines 50-55); `errno` is the value of the
global `errno` when it is called.  The C operators `&&` and `||` yield 1 or 0. -/
def micropoll_retry (ret : Int) (errno : Int) : Int :=
  if ret = -1 ∧ (errno = EAGAIN ∨ errno = EWOULDBLOCK ∨ errno = EINTR ∨ errno = ENOBUFS)
  then 1 else 0

/-! ## `micropoll` (lines 123-187) -/

/-- The record `struct pollfd` of `<poll.h>`. -/
structure pollfd where
  fd : Int
  events : Int
  revents : Int
deriving DecidableEq, Repr

/-- Which callback field of a slot an invocation came from: `pollerr` (line 170),
`pollin` (line 175) or `pollout[0]` (line 179). -/
inductive cb_kind where
  | pollerr
  | pollin
  | pollout
deriving DecidableEq, Repr

/-- One call of a handler made by `micropoll`: the callback field and the slot
index it was taken from, the handler address, and the arguments `fd`, `data`. -/
structure invocation where
  kind : cb_kind
  slot : Nat
  fn : Nat
  fd : Int
  data : Nat
deriving DecidableEq, Repr

/-- The code behind the handler addresses: the handler at address `fn`, called as
`fn(mp, fd, data)` on the reactor `mp` with the given `errno`, returns a value and
leaves a reactor and an `errno` behind.  A handler may do anything to the
reactor through `mp`, registration calls included. -/
abbrev handler_env := Nat → struct_micropoll → Int → Int → Nat → set_result

/-- What `poll` leaves behind: return value, `errno`, and the `revents` it wrote
into the entries of the array (entry `i` gets `revents[i]`, or keeps the 0 of the
initialiser of line 126 when the list is shorter). -/
structure poll_result where
  ret : Int
  errno : Int
  revents : List Int
deriving DecidableEq, Repr

/-- The system call `poll(pfd, n, timeout)`, an oracle: from the `n` entries
passed, the timeout and `errno` to its outcome. -/
abbrev poll_oracle := List pollfd → Int → Int → poll_result

/-- The front entry `pollout[0]` of a write queue. -/
def pollout_front (q : List struct_micropoll_cb) : struct_micropoll_cb :=
  q.headD cb_zero

/-- Lines 136-143: the `events` requested for a slot, starting from the 0 of the
initialiser and or-ing in `POLLIN` and `POLLOUT`. -/
def micropoll_events (s : struct_micropoll_fd) : Int :=
  let e0 : Int := 0
  let e1 : Int := if s.pollin.fn ≠ 0 then Int.lor e0 POLLIN else e0
  if (pollout_front s.pollout).fn ≠ 0 then Int.lor e1 POLLOUT else e1

/-- The loop of lines 130-148 from slot index `i`: the entries written to `pfd`,
each paired with the slot index written to `map`. -/
def micropoll_project : List struct_micropoll_fd → Nat → List (pollfd × Nat)
  | [], _ => []
  | s :: rest, i =>
    if s.set = 0 ∨ s.fd < 0 then micropoll_project rest (i + 1)
    else
      ({ fd := s.fd, events := micropoll_events s, revents := 0 }, i) ::
        micropoll_project rest (i + 1)

/-- The array `pfd` after `poll` has written `revents`, with `map` alongside. -/
def micropoll_entries : List (pollfd × Nat) → List Int → List (pollfd × Nat)
  | [], _ => []
  | (p, s) :: rest, revents =>
    ({ p with revents := revents.headD 0 }, s) :: micropoll_entries rest revents.tail

/-- The state of the loop of lines 157-185: reactor, `errno`, and the handler
invocations made so far, oldest first. -/
structure dispatch_state where
  mp : struct_micropoll
  errno : Int
  calls : List invocation
deriving DecidableEq, Repr

/-- Call the handler of `cb` as `cb.fn(mp, fd, cb.data)` and record the call. -/
def invoke (env : handler_env) (st : dispatch_state) (kind : cb_kind) (s : Nat)
    (cb : struct_micropoll_cb) (fd : Int) : Int × dispatch_state :=
  ((env cb.fn st.mp st.errno fd cb.data).ret,
   { mp := (env cb.fn st.mp st.errno fd cb.data).mp,
     errno := (env cb.fn st.mp st.errno fd cb.data).errno,
     calls := st.calls ++ [{ kind := kind, slot := s, fn := cb.fn, fd := fd, data := cb.data }] })

/-- An assignment to fields of `mp->fd[s]` through the pointer `mfd`. -/
def update_fd (mp : struct_micropoll) (s : Nat)
    (f : struct_micropoll_fd → struct_micropoll_fd) : struct_micropoll :=
  match mp.fd[s]? with
  | none => mp
  | some m => { fd := mp.fd.set s (f m) }

/-- The loop of line 180-181 from index `k` (`fuel` bounds the iterations left):
`pollout[k - 1] = pollout[k]` while `k < MICROPOLL_MAX_POLLOUT`. -/
def pollout_shift_loop : Nat → Nat → List struct_micropoll_cb → List struct_micropoll_cb
  | 0, _, q => q
  | fuel + 1, k, q =>
    if k < q.length then pollout_shift_loop fuel (k + 1) (q.set (k - 1) (q.getD k cb_zero))
    else q

/-- Lines 180-182: shift the queue one position forward and clear the last
position. -/
def pollout_shift (q : List struct_micropoll_cb) : List struct_micropoll_cb :=
  (pollout_shift_loop q.length 1 q).set (q.length - 1) cb_zero

/-- Lines 168-173, entered when `revents & (POLLERR | POLLNVAL)` is non-zero: call
the error handler if there is one, then clear the active flag of the slot. -/
def dispatch_pollerr (env : handler_env) (st : dispatch_state) (s : Nat) : dispatch_state :=
  match st.mp.fd[s]? with
  | none => st
  | some mfd =>
    if mfd.pollerr.fn ≠ 0 then
      { (invoke env st cb_kind.pollerr s mfd.pollerr mfd.fd).2 with
        mp := update_fd (invoke env st cb_kind.pollerr s mfd.pollerr mfd.fd).2.mp s
          (fun m => { m with set := 0 }) }
    else { st with mp := update_fd st.mp s (fun m => { m with set := 0 }) }

/-- Lines 174-177: call the read handler if there is one and `POLLIN` was
returned; clear the read callback of the slot if the handler returned 0. -/
def dispatch_pollin (env : handler_env) (st : dispatch_state) (s : Nat) (revents : Int) :
    dispatch_state :=
  match st.mp.fd[s]? with
  | none => st
  | some mfd =>
    if mfd.pollin.fn ≠ 0 ∧ Int.land revents POLLIN ≠ 0 then
      if (invoke env st cb_kind.pollin s mfd.pollin mfd.fd).1 = 0 then
        { (invoke env st cb_kind.pollin s mfd.pollin mfd.fd).2 with
          mp := update_fd (invoke env st cb_kind.pollin s mfd.pollin mfd.fd).2.mp s
            (fun m => { m with pollin := cb_zero }) }
      else (invoke env st cb_kind.pollin s mfd.pollin mfd.fd).2
    else st

/-- Lines 178-184: call the front write handler if there is one and `POLLOUT` was
returned; shift the write queue of the slot if the handler returned 0. -/
def dispatch_pollout (env : handler_env) (st : dispatch_state) (s : Nat) (revents : Int) :
    dispatch_state :=
  match st.mp.fd[s]? with
  | none => st
  | some mfd =>
    if (pollout_front mfd.pollout).fn ≠ 0 ∧ Int.land revents POLLOUT ≠ 0 then
      if (invoke env st cb_kind.pollout s (pollout_front mfd.pollout) mfd.fd).1 = 0 then
        { (invoke env st cb_kind.pollout s (pollout_front mfd.pollout) mfd.fd).2 with
          mp := update_fd (invoke env st cb_kind.pollout s (pollout_front mfd.pollout) mfd.fd).2.mp
            s (fun m => { m with pollout := pollout_shift m.pollout }) }
      else (invoke env st cb_kind.pollout s (pollout_front mfd.pollout) mfd.fd).2
    else st

/-- The body of the loop of lines 157-185 for the entry `e.1` of `pfd` and the slot
index `e.2` of `map`. -/
def micropoll_dispatch_entry (env : handler_env) (st : dispatch_state) (e : pollfd × Nat) :
    dispatch_state :=
  if e.1.revents = 0 then st
  else
    match st.mp.fd[e.2]? with
    | none => st
    | some mfd =>
      if mfd.set = 0 ∨ mfd.fd ≠ e.1.fd then st
      else if Int.land e.1.revents (Int.lor POLLERR POLLNVAL) ≠ 0 then
        dispatch_pollerr env st e.2
      else dispatch_pollout env (dispatch_pollin env st e.2 e.1.revents) e.2 e.1.revents

/-- The loop of lines 157-185 over the entries of `pfd`, in order. -/
def micropoll_dispatch (env : handler_env) (st : dispatch_state) (es : List (pollfd × Nat)) :
    dispatch_state :=
  es.foldl (micropoll_dispatch_entry env) st

/-- What `micropoll` leaves behind: return value, `errno`, reactor, the handler
invocations it made (oldest first) and the calls of `poll` it made, each with the
array and the timeout passed. -/
structure micropoll_result where
  ret : Int
  errno : Int
  mp : struct_micropoll
  calls : List invocation
  polls : List (List pollfd × Int)
deriving DecidableEq, Repr

/-- The function `micropoll` (lines 123-187). -/
def micropoll (env : handler_env) (poll : poll_oracle) (mp : struct_micropoll) (errno : Int)
    (timeout : Int) : micropoll_result :=
  let proj := micropoll_project mp.fd 0
  let pfd := proj.map Prod.fst
  if proj.length = 0 then { ret := -2, errno := errno, mp := mp, calls := [], polls := [] }
  else if (poll pfd timeout errno).ret ≤ 0 then
    { ret := (poll pfd timeout errno).ret, errno := (poll pfd timeout errno).errno, mp := mp,
      calls := [], polls := [(pfd, timeout)] }
  else
    let st := micropoll_dispatch env
      { mp := mp, errno := (poll pfd timeout errno).errno, calls := [] }
      (micropoll_entries proj (poll pfd timeout errno).revents)
    { ret := 0, errno := st.errno, mp := st.mp, calls := st.calls, polls := [(pfd, timeout)] }

/-- A write queue has no gaps: if position `k` is empty (null handler), every
position after `k` is empty. -/
def queue_gap_free (q : List struct_micropoll_cb) : Prop :=
  ∀ (k j : Nat) (c c' : struct_micropoll_cb), q[k]? = some c → c.fn = 0 → k < j →
    q[j]? = some c' → c'.fn = 0

/-- Handlers cannot change the number of slots of the reactor (it is an array of
fixed size). -/
def env_layout (env : handler_env) : Prop :=
  ∀ (fn : Nat) (mp : struct_micropoll) (errno fd : Int) (data : Nat),
    (env fn mp errno fd data).mp.fd.length = mp.fd.length

/-! ## The handler calls of a cycle, with the reactor each one is made on -/

/-- A handler call as `micropoll` makes it: the invocation that is recorded, and
the reactor and `errno` the handler is called on. -/
structure handler_call where
  inv : invocation
  mp : struct_micropoll
  errno : Int
deriving DecidableEq, Repr

/-- What the handler called as in `c` returns and leaves behind. -/
def call_outcome (env : handler_env) (c : handler_call) : set_result :=
  env c.inv.fn c.mp c.errno c.inv.fd c.inv.data

/-- The handler call made by `dispatch_pollerr` (line 170), if any. -/
def pollerr_sites (st : dispatch_state) (s : Nat) : List handler_call :=
  match st.mp.fd[s]? with
  | none => []
  | some mfd =>
    if mfd.pollerr.fn ≠ 0 then
      [{ inv := { kind := cb_kind.pollerr, slot := s, fn := mfd.pollerr.fn, fd := mfd.fd,
                  data := mfd.pollerr.data },
         mp := st.mp, errno := st.errno }]
    else []

/-- The handler call made by `dispatch_pollin` (line 175), if any. -/
def pollin_sites (st : dispatch_state) (s : Nat) (revents : Int) : List handler_call :=
  match st.mp.fd[s]? with
  | none => []
  | some mfd =>
    if mfd.pollin.fn ≠ 0 ∧ Int.land revents POLLIN ≠ 0 then
      [{ inv := { kind := cb_kind.pollin, slot := s, fn := mfd.pollin.fn, fd := mfd.fd,
                  data := mfd.pollin.data },
         mp := st.mp, errno := st.errno }]
    else []

/-- The handler call made by `dispatch_pollout` (line 179), if any. -/
def pollout_sites (st : dispatch_state) (s : Nat) (revents : Int) : List handler_call :=
  match st.mp.fd[s]? with
  | none => []
  | some mfd =>
    if (pollout_front mfd.pollout).fn ≠ 0 ∧ Int.land revents POLLOUT ≠ 0 then
      [{ inv := { kind := cb_kind.pollout, slot := s, fn := (pollout_front mfd.pollout).fn,
                  fd := mfd.fd, data := (pollout_front mfd.pollout).data },
         mp := st.mp, errno := st.errno }]
    else []

/-- The handler calls made by `micropoll_dispatch_entry env st e`, in order: the
same case distinction, with the write dispatch starting from the state the read
dispatch leaves. -/
def entry_sites (env : handler_env) (st : dispatch_state) (e : pollfd × Nat) :
    List handler_call :=
  if e.1.revents = 0 then []
  else
    match st.mp.fd[e.2]? with
    | none => []
    | some mfd =>
      if mfd.set = 0 ∨ mfd.fd ≠ e.1.fd then []
      else if Int.land e.1.revents (Int.lor POLLERR POLLNVAL) ≠ 0 then pollerr_sites st e.2
      else
        pollin_sites st e.2 e.1.revents ++
          pollout_sites (dispatch_pollin env st e.2 e.1.revents) e.2 e.1.revents

/-- The handler calls made by `micropoll_dispatch env st es`, in order. -/
def dispatch_sites (env : handler_env) : dispatch_state → List (pollfd × Nat) → List handler_call
  | _, [] => []
  | st, e :: rest =>
    entry_sites env st e ++ dispatch_sites env (micropoll_dispatch_entry env st e) rest

/-- The handler call `c` activates slot `s`: the slot is inactive in the reactor
the handler is called on and active in the reactor it leaves. -/
def call_activates (env : handler_env) (s : Nat) (c : handler_call) : Prop :=
  ∃ b b', c.mp.fd[s]? = some b ∧ b.set = 0 ∧
    (call_outcome env c).mp.fd[s]? = some b' ∧ b'.set ≠ 0

/-- The handler call `c` registers a read callback in slot `s`: the read callback
of the slot is all-zero in the reactor the handler is called on and not in the
reactor it leaves. -/
def call_fills_pollin (env : handler_env) (s : Nat) (c : handler_call) : Prop :=
  ∃ b b', c.mp.fd[s]? = some b ∧ b.pollin = cb_zero ∧
    (call_outcome env c).mp.fd[s]? = some b' ∧ b'.pollin ≠ cb_zero

/-- Whether a handler call activates a slot can be computed. -/
instance call_activates_decidable (env : handler_env) (s : Nat) (c : handler_call) :
    Decidable (call_activates env s c) :=
  match h : c.mp.fd[s]? with
  | none => isFalse (fun ⟨_, _, h1, _⟩ => by rw [h] at h1; cases h1)
  | some b =>
    match h' : (call_outcome env c).mp.fd[s]? with
    | none => isFalse (fun ⟨_, _, _, _, h3, _⟩ => by rw [h'] at h3; cases h3)
    | some b' =>
      if hb : b.set = 0 ∧ b'.set ≠ 0 then isTrue ⟨b, b', h, hb.1, h', hb.2⟩
      else isFalse (fun ⟨_, _, h1, h2, h3, h4⟩ => by
        rw [h] at h1; rw [h'] at h3; cases h1; cases h3; exact hb ⟨h2, h4⟩)

/-- Whether a handler call registers a read callback in a slot can be computed. -/
instance call_fills_pollin_decidable (env : handler_env) (s : Nat) (c : handler_call) :
    Decidable (call_fills_pollin env s c) :=
  match h : c.mp.fd[s]? with
  | none => isFalse (fun ⟨_, _, h1, _⟩ => by rw [h] at h1; cases h1)
  | some b =>
    match h' : (call_outcome env c).mp.fd[s]? with
    | none => isFalse (fun ⟨_, _, _, _, h3, _⟩ => by rw [h'] at h3; cases h3)
    | some b' =>
      if hb : b.pollin = cb_zero ∧ b'.pollin ≠ cb_zero then isTrue ⟨b, b', h, hb.1, h', hb.2⟩
      else isFalse (fun ⟨_, _, h1, h2, h3, h4⟩ => by
        rw [h] at h1; rw [h'] at h3; cases h1; cases h3; exact hb ⟨h2, h4⟩)

/-! ## Concrete handlers and `poll` outcomes used in the examples -/

/-- Handlers that all return `r` and leave the reactor and `errno` alone. -/
def env_const (r : Int) : handler_env :=
  fun _ mp errno _ _ => { ret := r, errno := errno, mp := mp }

/-- A `poll` that returns `ret` and reports `rev` for every entry. -/
def poll_const (ret rev : Int) : poll_oracle :=
  fun pfd _ errno => { ret := ret, errno := errno, revents := pfd.map (fun _ => rev) }

/-- A `poll` that returns `ret`, sets `errno` to `e` and reports the given
`revents`. -/
def poll_list (ret e : Int) (revents : List Int) : poll_oracle :=
  fun _ _ _ => { ret := ret, errno := e, revents := revents }

/-- The default build with descriptor 3 registered for read, handler `(7, 9)`. -/
def mp_reader : struct_micropoll :=
  (micropoll_set_in 4 (micropoll_zero 8 4) 0 3 7 9).mp

/-- The default build with descriptor 3 registered for read `(7, 9)`, error
`(6, 9)` and write `(8, 9)`. -/
def mp_busy : struct_micropoll :=
  (reg_run 4 (reg_init 8 4 0)
    [reg_call.set_in 3 7 9, reg_call.set_err 3 6 9, reg_call.set_out 3 8 9]).mp

/-- The reactor `mp_busy` after a cycle in which `poll` reported `POLLERR` for
descriptor 3. -/
def mp_after_error : struct_micropoll :=
  (micropoll (env_const 1) (poll_const 1 POLLERR) mp_busy 0 100).mp

/-- The default build with slot 0 holding `fd_full_queue` (descriptor 5, four
queued write callbacks). -/
def mp_full_queue : struct_micropoll :=
  { fd := fd_full_queue :: List.replicate 7 (fd_zero 4) }

/-- Handlers of an accepting server: the handler at address 20 registers
descriptor 9 for read with itself and returns 1; every other handler returns 0
and leaves the reactor alone. -/
def env_accept : handler_env :=
  fun fn mp errno _ _ =>
    if fn = 20 then { micropoll_set_in 4 mp errno 9 20 0 with ret := 1 }
    else { ret := 0, errno := errno, mp := mp }

/-- The default build with descriptor 3 registered for errors, handler `(10, 0)`,
in slot 0, and descriptor 4 registered for read, handler `(20, 0)`, in slot 1. -/
def mp_err_then_reader : struct_micropoll :=
  (reg_run 4 (reg_init 8 4 0) [reg_call.set_err 3 10 0, reg_call.set_in 4 20 0]).mp

/-- The default build with descriptor 3 registered for errors only, handler
`(6, 9)`. -/
def mp_err_only : struct_micropoll :=
  (micropoll_set_err 4 (micropoll_zero 8 4) 0 3 6 9).mp

/-- The default build after registering descriptors 1, 3 (error handler
`(10, 0)`) and 4 (read handler `(20, 0)`) and a cycle in which `poll` reported
`POLLERR` for descriptor 1: slot 0 is inactive, slots 1 and 2 hold descriptors 3
and 4. -/
def mp_gap : struct_micropoll :=
  (micropoll (env_const 0) (poll_list 1 0 [POLLERR, 0, 0])
    (reg_run 4 (reg_init 8 4 0)
      [reg_call.set_err 1 5 0, reg_call.set_err 3 10 0, reg_call.set_in 4 20 0]).mp 0 100).mp

theorem first_cons_skip (P : struct_micropoll_fd → Prop) (s : struct_micropoll_fd)
    (rest : List struct_micropoll_fd) (i k : Nat) (hs : ¬ P s) :
    (∃ d a, k = i + d ∧ (s :: rest)[d]? = some a ∧ P a ∧
        ∀ j b, j < d → (s :: rest)[j]? = some b → ¬ P b) ↔
    (∃ d a, k = (i + 1) + d ∧ rest[d]? = some a ∧ P a ∧
        ∀ j b, j < d → rest[j]? = some b → ¬ P b) := by
  constructor
  · rintro ⟨d, a, hk, hd, hP, hlt⟩
    cases d with
    | zero =>
      simp at hd
      subst hd
      exact absurd hP hs
    | succ d =>
      refine ⟨d, a, by omega, by simpa using hd, hP, ?_⟩
      intro j b hj hb
      exact hlt (j + 1) b (by omega) (by simpa using hb)
  · rintro ⟨d, a, hk, hd, hP, hlt⟩
    refine ⟨d + 1, a, by omega, by simpa using hd, hP, ?_⟩
    intro j b hj hb
    cases j with
    | zero =>
      simp at hb
      subst hb
      exact hs
    | succ j => exact hlt j b (by omega) (by simpa using hb)

theorem set_scan_found_iff (fd : Int) :
    ∀ (l : List struct_micropoll_fd) (i : Nat) (e : Int) (k : Nat),
      micropoll_set_scan fd l i e = set_scan.found k ↔
        ∃ d a, k = i + d ∧ l[d]? = some a ∧ (a.set ≠ 0 ∧ a.fd = fd) ∧
          ∀ j b, j < d → l[j]? = some b → ¬ (b.set ≠ 0 ∧ b.fd = fd) := by
  intro l
  induction l with
  | nil => intro i e k; simp [micropoll_set_scan]
  | cons s rest ih =>
    intro i e k
    by_cases hs : s.set ≠ 0 ∧ s.fd = fd
    · have h1 : micropoll_set_scan fd (s :: rest) i e = set_scan.found i := by
        simp [micropoll_set_scan, hs.1, hs.2]
      rw [h1]
      constructor
      · intro h
        injection h with h
        exact ⟨0, s, by omega, by simp, hs, by intro j b hj; omega⟩
      · rintro ⟨d, a, hk, hd, hP, hlt⟩
        cases d with
        | zero => subst hk; rfl
        | succ d => exact absurd hs (hlt 0 s (by omega) (by simp))
    · rw [first_cons_skip (fun a => a.set ≠ 0 ∧ a.fd = fd) s rest i k hs]
      by_cases h0 : s.set ≠ 0
      · have hfd : ¬ s.fd = fd := fun h => hs ⟨h0, h⟩
        have h1 : micropoll_set_scan fd (s :: rest) i e =
            micropoll_set_scan fd rest (i + 1) e := by
          simp [micropoll_set_scan, h0, hfd]
        rw [h1]; exact ih (i + 1) e k
      · by_cases he : e = -1
        · have h1 : micropoll_set_scan fd (s :: rest) i e =
              micropoll_set_scan fd rest (i + 1) (i : Int) := by
            simp [micropoll_set_scan, h0, he]
          rw [h1]; exact ih (i + 1) _ k
        · have h1 : micropoll_set_scan fd (s :: rest) i e =
              micropoll_set_scan fd rest (i + 1) e := by
            simp [micropoll_set_scan, h0, he]
          rw [h1]; exact ih (i + 1) e k


theorem set_scan_finished (fd : Int) :
    ∀ (l : List struct_micropoll_fd) (i : Nat) (e e' : Int),
      micropoll_set_scan fd l i e = set_scan.finished e' →
        (∀ (j : Nat) (b : struct_micropoll_fd), l[j]? = some b → ¬ (b.set ≠ 0 ∧ b.fd = fd)) ∧
        (e ≠ -1 → e' = e) ∧
        (e = -1 → e' = -1 →
          ∀ (j : Nat) (b : struct_micropoll_fd), l[j]? = some b → b.set ≠ 0) ∧
        (e = -1 → e' ≠ -1 → ∃ d b, e' = ((i + d : Nat) : Int) ∧ l[d]? = some b ∧ b.set = 0 ∧
          ∀ j c, j < d → l[j]? = some c → c.set ≠ 0) := by
  intro l
  induction l with
  | nil =>
    intro i e e' h
    simp only [micropoll_set_scan] at h
    injection h with h
    subst h
    refine ⟨by simp, fun _ => rfl, by simp, fun h1 h2 => absurd h1 h2⟩
  | cons s rest ih =>
    intro i e e' h
    by_cases h0 : s.set ≠ 0
    · by_cases hfd : s.fd = fd
      · simp [micropoll_set_scan, h0, hfd] at h
      · have h1 : micropoll_set_scan fd rest (i + 1) e = set_scan.finished e' := by
          simpa [micropoll_set_scan, h0, hfd] using h
        obtain ⟨a1, a2, a3, a4⟩ := ih (i + 1) e e' h1
        refine ⟨?_, a2, ?_, ?_⟩
        · intro j b hb
          cases j with
          | zero => simp at hb; subst hb; exact fun hh => hfd hh.2
          | succ j => exact a1 j b (by simpa using hb)
        · intro he he' j b hb
          cases j with
          | zero => simp at hb; subst hb; exact h0
          | succ j => exact a3 he he' j b (by simpa using hb)
        · intro he he'
          obtain ⟨d, b, hd, hb, hb0, hlt⟩ := a4 he he'
          refine ⟨d + 1, b, by rw [hd]; congr 1; omega, by simpa using hb, hb0, ?_⟩
          intro j c hj hc
          cases j with
          | zero => simp at hc; subst hc; exact h0
          | succ j => exact hlt j c (by omega) (by simpa using hc)
    · have hs0 : s.set = 0 := by simpa using h0
      by_cases he : e = -1
      · have h1 : micropoll_set_scan fd rest (i + 1) (i : Int) = set_scan.finished e' := by
          simpa [micropoll_set_scan, h0, he] using h
        have hi : (i : Int) ≠ -1 := by omega
        obtain ⟨a1, a2, _, _⟩ := ih (i + 1) (i : Int) e' h1
        have he' : e' = (i : Int) := a2 hi
        refine ⟨?_, fun hne => absurd he hne, ?_, ?_⟩
        · intro j b hb
          cases j with
          | zero => simp at hb; subst hb; exact fun hh => h0 hh.1
          | succ j => exact a1 j b (by simpa using hb)
        · intro _ h2; omega
        · intro _ _
          exact ⟨0, s, by simpa using he', by simp, hs0, by intro j c hj; omega⟩
      · have h1 : micropoll_set_scan fd rest (i + 1) e = set_scan.finished e' := by
          simpa [micropoll_set_scan, h0, he] using h
        obtain ⟨a1, a2, _, _⟩ := ih (i + 1) e e' h1
        refine ⟨?_, a2, fun h2 => absurd h2 he, fun h2 => absurd h2 he⟩
        intro j b hb
        cases j with
        | zero => simp at hb; subst hb; exact fun hh => h0 hh.1
        | succ j => exact a1 j b (by simpa using hb)

theorem set_scan_full (fd : Int) :
    ∀ (l : List struct_micropoll_fd) (i : Nat) (e : Int),
      (∀ s ∈ l, s.set ≠ 0 ∧ s.fd ≠ fd) →
        micropoll_set_scan fd l i e = set_scan.finished e := by
  intro l
  induction l with
  | nil => intro i e _; rfl
  | cons s rest ih =>
    intro i e h
    have hs := h s (by simp)
    have h1 : micropoll_set_scan fd (s :: rest) i e =
        micropoll_set_scan fd rest (i + 1) e := by
      simp [micropoll_set_scan, hs.1, hs.2]
    rw [h1]
    exact ih (i + 1) e (fun t ht => h t (by simp [ht]))


theorem unique_iff_index (mp : struct_micropoll) :
    micropoll_unique mp ↔
      ∀ (i j : Nat) (a b : struct_micropoll_fd), mp.fd[i]? = some a → mp.fd[j]? = some b →
        a.set ≠ 0 → b.set ≠ 0 → a.fd = b.fd → i = j := by
  unfold micropoll_unique
  rw [List.pairwise_iff_getElem]
  constructor
  · intro h i j a b hi hj ha hb hab
    obtain ⟨hi1, hi2⟩ := List.getElem?_eq_some_iff.1 hi
    obtain ⟨hj1, hj2⟩ := List.getElem?_eq_some_iff.1 hj
    subst hi2; subst hj2
    rcases Nat.lt_trichotomy i j with hlt | heq | hgt
    · exact absurd hab (h i j hi1 hj1 hlt ha hb)
    · exact heq
    · exact absurd hab.symm (h j i hj1 hi1 hgt hb ha)
  · intro h i j hi hj hlt ha hb hab
    have := h i j _ _ (List.getElem?_eq_getElem hi) (List.getElem?_eq_getElem hj) ha hb hab
    omega

theorem unique_set (mp : struct_micropoll) (i : Nat) (x : struct_micropoll_fd)
    (hu : micropoll_unique mp)
    (hx : x.set ≠ 0 → ∀ (j : Nat) (b : struct_micropoll_fd), j ≠ i → mp.fd[j]? = some b →
      b.set ≠ 0 → b.fd ≠ x.fd) :
    micropoll_unique { fd := mp.fd.set i x } := by
  rw [unique_iff_index] at hu ⊢
  intro p q a b hp hq ha hb hab
  simp only [List.getElem?_set] at hp hq
  by_cases hpi : i = p
  · by_cases hqi : i = q
    · omega
    · rw [if_pos hpi] at hp
      rw [if_neg hqi] at hq
      split at hp
      · injection hp with hp
        subst hp
        exact absurd hab.symm (hx ha q b (fun h => hqi h.symm) hq hb)
      · exact absurd hp (by simp)
  · rw [if_neg hpi] at hp
    by_cases hqi : i = q
    · rw [if_pos hqi] at hq
      split at hq
      · injection hq with hq
        subst hq
        exact absurd hab (hx hb p a (fun h => hpi h.symm) hp ha)
      · exact absurd hq (by simp)
    · rw [if_neg hqi] at hq
      exact hu p q a b hp hq ha hb hab

theorem set_cb_some (m : struct_micropoll_fd) (errno event : Int) (cb : struct_micropoll_cb) :
    ∃ m', (micropoll_set_cb (some m) errno event cb).mfd = some m' ∧
      m'.set = m.set ∧ m'.fd = m.fd ∧
      ((micropoll_set_cb (some m) errno event cb).ret ≠ 0 → m' = m) := by
  unfold micropoll_set_cb
  simp only
  split_ifs
  · exact ⟨m, rfl, rfl, rfl, fun _ => rfl⟩
  · exact ⟨_, rfl, rfl, rfl, fun h => absurd rfl h⟩
  · exact ⟨_, rfl, rfl, rfl, fun h => absurd rfl h⟩
  · exact ⟨m, rfl, rfl, rfl, fun _ => rfl⟩
  · split
    · exact ⟨m, rfl, rfl, rfl, fun _ => rfl⟩
    · split_ifs
      · exact ⟨m, rfl, rfl, rfl, fun _ => rfl⟩
      · exact ⟨_, rfl, rfl, rfl, fun h => absurd rfl h⟩


theorem set_cb_at_eq (mp : struct_micropoll) (i : Nat) (a a' : struct_micropoll_fd)
    (errno event : Int) (cb : struct_micropoll_cb) (h : mp.fd[i]? = some a)
    (h' : (micropoll_set_cb (some a) errno event cb).mfd = some a') :
    set_cb_at mp i errno event cb =
      { ret := (micropoll_set_cb (some a) errno event cb).ret,
        errno := (micropoll_set_cb (some a) errno event cb).errno,
        mp := { fd := mp.fd.set i a' } } := by
  unfold set_cb_at
  simp only [h, h', store_fd]

theorem micropoll_set_cases (M : Nat) (mp : struct_micropoll) (errno fd event : Int)
    (fn data : Nat) (hfd : 0 ≤ fd) :
    (∃ (i : Nat) (a a' : struct_micropoll_fd), mp.fd[i]? = some a ∧ a.set ≠ 0 ∧ a.fd = fd ∧
        (∀ (j : Nat) (b : struct_micropoll_fd), j < i → mp.fd[j]? = some b →
          ¬ (b.set ≠ 0 ∧ b.fd = fd)) ∧
        (micropoll_set_cb (some a) errno event (micropoll_cb fn data)).mfd = some a' ∧
        micropoll_set M mp errno fd event fn data =
          { ret := (micropoll_set_cb (some a) errno event (micropoll_cb fn data)).ret,
            errno := (micropoll_set_cb (some a) errno event (micropoll_cb fn data)).errno,
            mp := { fd := mp.fd.set i a' } }) ∨
    ((∀ (j : Nat) (b : struct_micropoll_fd), mp.fd[j]? = some b → b.set ≠ 0 ∧ b.fd ≠ fd) ∧
        micropoll_set M mp errno fd event fn data = { ret := -1, errno := ENOBUFS, mp := mp }) ∨
    (∃ (d : Nat) (b a' : struct_micropoll_fd), mp.fd[d]? = some b ∧ b.set = 0 ∧
        (∀ (j : Nat) (c : struct_micropoll_fd), j < d → mp.fd[j]? = some c → c.set ≠ 0) ∧
        (∀ (j : Nat) (c : struct_micropoll_fd), mp.fd[j]? = some c →
          ¬ (c.set ≠ 0 ∧ c.fd = fd)) ∧
        (micropoll_set_cb (some { fd_zero M with set := 1, fd := fd }) errno event
          (micropoll_cb fn data)).mfd = some a' ∧
        micropoll_set M mp errno fd event fn data =
          { ret := (micropoll_set_cb (some { fd_zero M with set := 1, fd := fd }) errno event
              (micropoll_cb fn data)).ret,
            errno := (micropoll_set_cb (some { fd_zero M with set := 1, fd := fd }) errno event
              (micropoll_cb fn data)).errno,
            mp := { fd := mp.fd.set d a' } }) := by
  have hnot : ¬ fd < 0 := by omega
  cases hscan : micropoll_set_scan fd mp.fd 0 (-1) with
  | found i =>
    left
    obtain ⟨d, a, hk, hd, hP, hlt⟩ := (set_scan_found_iff fd mp.fd 0 (-1) i).1 hscan
    have hid : i = d := by omega
    subst hid
    obtain ⟨a', ha', -, -, -⟩ := set_cb_some a errno event (micropoll_cb fn data)
    refine ⟨i, a, a', hd, hP.1, hP.2, hlt, ha', ?_⟩
    unfold micropoll_set
    simp only [hnot, if_false, hscan]
    exact set_cb_at_eq mp i a a' errno event _ hd ha'
  | finished e =>
    right
    obtain ⟨a1, -, a3, a4⟩ := set_scan_finished fd mp.fd 0 (-1) e hscan
    by_cases he : e = -1
    · left
      refine ⟨fun j b hb => ⟨a3 rfl he j b hb, fun h => a1 j b hb ⟨a3 rfl he j b hb, h⟩⟩, ?_⟩
      unfold micropoll_set
      simp only [hnot, if_false, hscan, he, if_true]
    · right
      obtain ⟨d, b, hd, hb, hb0, hlt⟩ := a4 rfl he
      have hdn : e.toNat = d := by rw [hd]; simp
      obtain ⟨a', ha', -, -, -⟩ := set_cb_some { fd_zero M with set := 1, fd := fd } errno event
        (micropoll_cb fn data)
      refine ⟨d, b, a', hb, hb0, hlt, a1, ha', ?_⟩
      unfold micropoll_set
      simp only [hnot, if_false, hscan, he, hdn]
      have hlen : d < mp.fd.length := (List.getElem?_eq_some_iff.1 hb).1
      rw [set_cb_at_eq _ d { fd_zero M with set := 1, fd := fd } a' errno event _
        (by simp [hlen]) ha']
      simp

theorem micropoll_set_unique (M : Nat) (mp : struct_micropoll) (errno fd event : Int)
    (fn data : Nat) (hu : micropoll_unique mp) :
    micropoll_unique (micropoll_set M mp errno fd event fn data).mp := by
  by_cases hfd : fd < 0
  · simpa [micropoll_set, hfd] using hu
  · rcases micropoll_set_cases M mp errno fd event fn data (by omega) with
      ⟨i, a, a', ha, ha0, hafd, -, hcb, heq⟩ | ⟨-, heq⟩ | ⟨d, b, a', hb, -, -, hno, hcb, heq⟩
    · rw [heq]
      obtain ⟨a'', h1, h2, h3, -⟩ := set_cb_some a errno event (micropoll_cb fn data)
      have haa : a'' = a' := Option.some.inj (h1.symm.trans hcb)
      subst haa
      refine unique_set mp i a'' hu ?_
      intro hx j c hji hc hc0 hcfd
      have := (unique_iff_index mp).1 hu j i c a hc ha hc0 ha0 (by rw [hcfd, h3])
      exact hji this
    · rw [heq]; exact hu
    · rw [heq]
      obtain ⟨a'', h1, h2, h3, -⟩ := set_cb_some { fd_zero M with set := 1, fd := fd } errno event
        (micropoll_cb fn data)
      have haa : a'' = a' := Option.some.inj (h1.symm.trans hcb)
      subst haa
      refine unique_set mp d a'' hu ?_
      intro hx j c hji hc hc0 hcfd
      exact hno j c hc ⟨hc0, by rw [hcfd, h3]⟩

theorem reg_step_unique (M : Nat) (mp : struct_micropoll) (errno : Int) (c : reg_call)
    (hu : micropoll_unique mp) : micropoll_unique (reg_step M mp errno c).mp := by
  cases c <;> exact micropoll_set_unique M mp errno _ _ _ _ hu

theorem reg_run_unique (M : Nat) (calls : List reg_call) :
    ∀ r : set_result, micropoll_unique r.mp → micropoll_unique (reg_run M r calls).mp := by
  induction calls with
  | nil => intro r h; exact h
  | cons c cs ih => intro r h; exact ih _ (reg_step_unique M r.mp r.errno c h)

theorem micropoll_zero_unique (N M : Nat) : micropoll_unique (micropoll_zero N M) := by
  unfold micropoll_unique micropoll_zero
  rw [List.pairwise_replicate]
  right
  intro h
  exact absurd rfl h

/-- C1. Uniqueness invariant.  A `micropoll_set` call, whatever its arguments and
whatever it returns, takes a reactor in which no two active slots hold the same
descriptor to a reactor with the same property; hence every state reached from a
zero-initialised reactor by any finite sequence of `micropoll_set`,
`micropoll_set_in`, `micropoll_set_out` and `micropoll_set_err` calls has at most
one active slot per descriptor value. -/
theorem C1_uniqueness_invariant :
    (∀ (M : Nat) (mp : struct_micropoll) (errno fd event : Int) (fn data : Nat),
      micropoll_unique mp → micropoll_unique (micropoll_set M mp errno fd event fn data).mp) ∧
    (∀ (N M : Nat) (e : Int) (calls : List reg_call),
      micropoll_unique (reg_run M (reg_init N M e) calls).mp) :=
  ⟨micropoll_set_unique,
   fun N M e calls => reg_run_unique M calls (reg_init N M e) (micropoll_zero_unique N M)⟩

/-- Witness of C1: the reactor `mp_two` holds descriptors 3 and 5 in two active
slots; registering descriptor 5 again keeps the slots distinct. -/
theorem C1_uniqueness_invariant_witness :
    micropoll_unique mp_two ∧
      micropoll_unique (micropoll_set 4 mp_two 0 5 POLLIN 7 9).mp :=
  ⟨by decide, C1_uniqueness_invariant.1 4 mp_two 0 5 POLLIN 7 9 (by decide)⟩

/-- C2. Table capacity.  When every slot of the table is active and none of them
holds `fd >= 0`, `micropoll_set` returns -1 with `errno = ENOBUFS`, for every
event and callback, and the reactor after the call is the reactor before it. -/
theorem C2_table_capacity (M : Nat) (mp : struct_micropoll) (errno fd event : Int)
    (fn data : Nat) (hfd : 0 ≤ fd) (hfull : ∀ s ∈ mp.fd, s.set ≠ 0)
    (hnew : ∀ s ∈ mp.fd, s.set ≠ 0 → s.fd ≠ fd) :
    micropoll_set M mp errno fd event fn data = { ret := -1, errno := ENOBUFS, mp := mp } := by
  have hnot : ¬ fd < 0 := by omega
  have hscan := set_scan_full fd mp.fd 0 (-1) (fun s hs => ⟨hfull s hs, hnew s hs (hfull s hs)⟩)
  unfold micropoll_set
  simp only [hnot, if_false, hscan, if_true]

/-- Witness of C2: descriptors 0..7 are registered for read in the default build
(capacity 8); registering descriptor 8 fails with `ENOBUFS` and changes nothing. -/
theorem C2_table_capacity_witness :
    (0 : Int) ≤ 8 ∧ (∀ s ∈ mp_full.fd, s.set ≠ 0) ∧ (∀ s ∈ mp_full.fd, s.set ≠ 0 → s.fd ≠ 8) ∧
      mp_full.fd.length = MICROPOLL_MAX_FD ∧
      micropoll_set 4 mp_full 0 8 POLLIN 1 0 = { ret := -1, errno := ENOBUFS, mp := mp_full } :=
  ⟨by decide, by decide, by decide, by decide,
   C2_table_capacity 4 mp_full 0 8 POLLIN 1 0 (by decide) (by decide) (by decide)⟩

/-- C3 (fails on the code).  On a zero-initialised reactor of the default build,
`micropoll_set` with the new descriptor 5 and the unrecognised events 0 and
`POLLIN | POLLOUT` returns -1, yet slot 0 has been claimed: it is active, holds
descriptor 5, and the table differs from the table before the call. -/
theorem C3_failed_registration_claims_slot :
    (micropoll_set 4 (micropoll_zero 8 4) 0 5 0 7 9).ret = -1 ∧
    (micropoll_set 4 (micropoll_zero 8 4) 0 5 0 7 9).mp ≠ micropoll_zero 8 4 ∧
    (micropoll_set 4 (micropoll_zero 8 4) 0 5 0 7 9).mp.fd[0]? =
      some { fd_zero 4 with set := 1, fd := 5 } ∧
    (micropoll_set 4 (micropoll_zero 8 4) 0 5 (POLLIN + POLLOUT) 7 9).ret = -1 ∧
    (micropoll_set 4 (micropoll_zero 8 4) 0 5 (POLLIN + POLLOUT) 7 9).mp ≠ micropoll_zero 8 4 := by
  decide

/-- C4 (fails on the code).  Registering the write callbacks `A = (7, 9)` and then
`B = (8, 9)` on descriptor 5 of a zero-initialised reactor returns 0 both times,
and the write queue is then `[B, empty, empty, empty]`: `B` was stored at
position 0 over `A`, not appended at position 1.  The same at the level of
`micropoll_set_cb`. -/
theorem C4_second_writer_overwrites_front :
    (reg_run 4 (reg_init 8 4 0) [reg_call.set_out 5 7 9, reg_call.set_out 5 8 9]).ret = 0 ∧
    (reg_run 4 (reg_init 8 4 0) [reg_call.set_out 5 7 9]).mp.fd[0]? = some fd_one_writer ∧
    (reg_run 4 (reg_init 8 4 0) [reg_call.set_out 5 7 9, reg_call.set_out 5 8 9]).mp.fd[0]? =
      some { fd_one_writer with pollout := [⟨8, 9⟩, cb_zero, cb_zero, cb_zero] } ∧
    micropoll_set_cb (some fd_one_writer) 0 POLLOUT ⟨8, 9⟩ =
      { ret := 0, errno := 0,
        mfd := some { fd_one_writer with pollout := [⟨8, 9⟩, cb_zero, cb_zero, cb_zero] } } := by
  decide

/-- C5 (fails on the code).  With the four write-queue positions occupied by
`(1,1) .. (4,4)`, registering the different callback `(5,5)` for write returns 0,
leaves `errno` alone and overwrites position 0. -/
theorem C5_full_queue_accepts_and_overwrites :
    micropoll_set_cb (some fd_full_queue) 0 POLLOUT ⟨5, 5⟩ =
      { ret := 0, errno := 0,
        mfd := some { fd_full_queue with pollout := [⟨5, 5⟩, ⟨2, 2⟩, ⟨3, 3⟩, ⟨4, 4⟩] } } ∧
    micropoll_set_out 4 { fd := fd_full_queue :: List.replicate 7 (fd_zero 4) } 0 5 5 5 =
      { ret := 0, errno := 0,
        mp := { fd := { fd_full_queue with pollout := [⟨5, 5⟩, ⟨2, 2⟩, ⟨3, 3⟩, ⟨4, 4⟩] } ::
          List.replicate 7 (fd_zero 4) } } := by
  decide

theorem cb_scan_some (cb : struct_micropoll_cb) :
    ∀ (q : List struct_micropoll_cb) (i : Nat) (e e' : Int),
      micropoll_set_cb_scan cb q i e = some e' →
        (e ≠ -1 → e' = e) ∧ (e = -1 → e' ≠ -1 → q ≠ [] ∧ e' = (i : Int)) := by
  intro q
  induction q with
  | nil =>
    intro i e e' h
    simp only [micropoll_set_cb_scan] at h
    injection h with h
    subst h
    exact ⟨fun _ => rfl, fun h1 h2 => absurd h1 h2⟩
  | cons x rest ih =>
    intro i e e' h
    by_cases hx : x.fn = cb.fn ∧ x.data = cb.data
    · simp [micropoll_set_cb_scan, hx] at h
    · by_cases he : e = -1
      · have h1 : micropoll_set_cb_scan cb rest (i + 1) (i : Int) = some e' := by
          simpa [micropoll_set_cb_scan, hx, he] using h
        have hi : (i : Int) ≠ -1 := by omega
        exact ⟨fun hne => absurd he hne, fun _ _ => ⟨by simp, (ih (i + 1) _ e' h1).1 hi⟩⟩
      · have h1 : micropoll_set_cb_scan cb rest (i + 1) e = some e' := by
          simpa [micropoll_set_cb_scan, hx, he] using h
        exact ⟨(ih (i + 1) e e' h1).1, fun h2 => absurd h2 he⟩

theorem cb_scan_head (cb : struct_micropoll_cb) (rest : List struct_micropoll_cb) (i : Nat)
    (e : Int) : micropoll_set_cb_scan cb (cb :: rest) i e = none := by
  simp [micropoll_set_cb_scan]

theorem set_cb_pollout_idem (a : struct_micropoll_fd) (e : Int) (cb : struct_micropoll_cb)
    (h : (micropoll_set_cb (some a) e POLLOUT cb).ret = 0) :
    ∃ a', micropoll_set_cb (some a) e POLLOUT cb = { ret := 0, errno := e, mfd := some a' } ∧
      ∀ e2, micropoll_set_cb (some a') e2 POLLOUT cb = { ret := 0, errno := e2, mfd := some a' } := by
  have p0 : ¬ POLLOUT = 0 := by decide
  have p1 : ¬ POLLOUT = POLLIN := by decide
  have p2 : ¬ POLLOUT = POLLERR := by decide
  cases hscan : micropoll_set_cb_scan cb a.pollout 0 (-1) with
  | none =>
    refine ⟨a, ?_, ?_⟩
    · simp [micropoll_set_cb, p0, p1, p2, hscan]
    · intro e2; simp [micropoll_set_cb, p0, p1, p2, hscan]
  | some e' =>
    by_cases he : e' = -1
    · simp [micropoll_set_cb, p0, p1, p2, hscan, he] at h
    · obtain ⟨hne, he0⟩ := (cb_scan_some cb a.pollout 0 (-1) e' hscan).2 rfl he
      obtain ⟨x, rest, hq⟩ := List.exists_cons_of_ne_nil hne
      have he0' : e' = 0 := by simpa using he0
      subst he0'
      rw [hq] at hscan
      refine ⟨{ a with pollout := cb :: rest }, ?_, ?_⟩
      · simp [micropoll_set_cb, p0, p1, p2, hscan, hq]
      · intro e2; simp [micropoll_set_cb, p0, p1, p2, cb_scan_head]

theorem micropoll_set_found (M : Nat) (mp : struct_micropoll) (errno fd event : Int)
    (fn data : Nat) (i : Nat) (a : struct_micropoll_fd) (hfd : 0 ≤ fd)
    (hi : mp.fd[i]? = some a) (ha : a.set ≠ 0) (hafd : a.fd = fd)
    (hfirst : ∀ (j : Nat) (b : struct_micropoll_fd), j < i → mp.fd[j]? = some b →
      ¬ (b.set ≠ 0 ∧ b.fd = fd)) :
    micropoll_set M mp errno fd event fn data =
      set_cb_at mp i errno event (micropoll_cb fn data) := by
  have hnot : ¬ fd < 0 := by omega
  have hscan : micropoll_set_scan fd mp.fd 0 (-1) = set_scan.found i :=
    (set_scan_found_iff fd mp.fd 0 (-1) i).2 ⟨i, a, by omega, hi, ⟨ha, hafd⟩, hfirst⟩
  unfold micropoll_set
  simp only [hnot, if_false, hscan]

theorem set_out_twice (M : Nat) (mp : struct_micropoll) (errno fd : Int) (fn data : Nat)
    (hfd : 0 ≤ fd) (h0 : (micropoll_set_out M mp errno fd fn data).ret = 0) :
    micropoll_set_out M (micropoll_set_out M mp errno fd fn data).mp
        (micropoll_set_out M mp errno fd fn data).errno fd fn data =
      micropoll_set_out M mp errno fd fn data := by
  unfold micropoll_set_out at h0 ⊢
  rcases micropoll_set_cases M mp errno fd POLLOUT fn data hfd with
    ⟨i, a, a', ha, ha0, hafd, hfirst, hcb, heq⟩ | ⟨-, heq⟩ | ⟨d, b, a', hb, -, -, hno, hcb, heq⟩
  · rw [heq] at h0 ⊢
    obtain ⟨a2, h1, h2⟩ := set_cb_pollout_idem a errno (micropoll_cb fn data) h0
    rw [h1] at hcb
    have haa : a2 = a' := Option.some.inj hcb
    subst haa
    obtain ⟨a3, k1, k2, k3, -⟩ := set_cb_some a errno POLLOUT (micropoll_cb fn data)
    rw [h1] at k1
    have haa : a2 = a3 := Option.some.inj k1
    subst haa
    have hlen : i < mp.fd.length := (List.getElem?_eq_some_iff.1 ha).1
    rw [h1]
    simp only
    rw [micropoll_set_found M _ errno fd POLLOUT fn data i a2 hfd (by simp [hlen])
      (by rw [k2]; exact ha0) (by rw [k3]; exact hafd)
      (by
        intro j c hj hc
        rw [List.getElem?_set_ne (by omega)] at hc
        exact hfirst j c hj hc)]
    rw [set_cb_at_eq _ i a2 a2 errno POLLOUT _ (by simp [hlen]) (by rw [h2])]
    rw [h2]
    simp
  · rw [heq] at h0
    simp at h0
  · rw [heq] at h0 ⊢
    obtain ⟨a2, h1, h2⟩ := set_cb_pollout_idem _ errno (micropoll_cb fn data) h0
    rw [h1] at hcb
    have haa : a2 = a' := Option.some.inj hcb
    subst haa
    obtain ⟨a3, k1, k2, k3, -⟩ := set_cb_some { fd_zero M with set := 1, fd := fd } errno POLLOUT
      (micropoll_cb fn data)
    rw [h1] at k1
    have haa : a2 = a3 := Option.some.inj k1
    subst haa
    have hlen : d < mp.fd.length := (List.getElem?_eq_some_iff.1 hb).1
    rw [h1]
    simp only
    rw [micropoll_set_found M _ errno fd POLLOUT fn data d a2 hfd (by simp [hlen])
      (by rw [k2]; simp) (by rw [k3])
      (by
        intro j c hj hc
        rw [List.getElem?_set_ne (by omega)] at hc
        exact hno j c hc)]
    rw [set_cb_at_eq _ d a2 a2 errno POLLOUT _ (by simp [hlen]) (by rw [h2])]
    rw [h2]
    simp

theorem set_scan_inactive (fd : Int) :
    ∀ (l : List struct_micropoll_fd) (i : Nat) (e : Int),
      (∀ s ∈ l, s.set = 0) → e ≠ -1 → micropoll_set_scan fd l i e = set_scan.finished e := by
  intro l
  induction l with
  | nil => intro i e _ _; rfl
  | cons s rest ih =>
    intro i e h he
    have hs := h s (by simp)
    have h1 : micropoll_set_scan fd (s :: rest) i e =
        micropoll_set_scan fd rest (i + 1) e := by
      simp [micropoll_set_scan, hs, he]
    rw [h1]
    exact ih (i + 1) e (fun t ht => h t (by simp [ht])) he

theorem cb_scan_nomatch (cb : struct_micropoll_cb) :
    ∀ (q : List struct_micropoll_cb) (i : Nat) (e : Int),
      (∀ x ∈ q, ¬ (x.fn = cb.fn ∧ x.data = cb.data)) → e ≠ -1 →
        micropoll_set_cb_scan cb q i e = some e := by
  intro q
  induction q with
  | nil => intro i e _ _; rfl
  | cons x rest ih =>
    intro i e h he
    have hx := h x (by simp)
    have h1 : micropoll_set_cb_scan cb (x :: rest) i e =
        micropoll_set_cb_scan cb rest (i + 1) e := by
      simp only [micropoll_set_cb_scan, hx, he, if_false]
    rw [h1]
    exact ih (i + 1) e (fun t ht => h t (by simp [ht])) he

theorem set_out_zero (n m : Nat) (e fd : Int) (fn data : Nat) (hfd : 0 ≤ fd) (hfn : fn ≠ 0) :
    micropoll_set_out (m + 1) (micropoll_zero (n + 1) (m + 1)) e fd fn data =
      { ret := 0, errno := e,
        mp := { fd := { fd_zero (m + 1) with
                          set := 1, fd := fd,
                          pollout := micropoll_cb fn data :: List.replicate m cb_zero } ::
                  List.replicate n (fd_zero (m + 1)) } } := by
  have hnot : ¬ fd < 0 := by omega
  have p0 : ¬ POLLOUT = 0 := by decide
  have p1 : ¬ POLLOUT = POLLIN := by decide
  have p2 : ¬ POLLOUT = POLLERR := by decide
  have hscan : micropoll_set_scan fd (micropoll_zero (n + 1) (m + 1)).fd 0 (-1) =
      set_scan.finished 0 := by
    have h1 : micropoll_set_scan fd (fd_zero (m + 1) :: List.replicate n (fd_zero (m + 1))) 0 (-1) =
        micropoll_set_scan fd (List.replicate n (fd_zero (m + 1))) 1 0 := by
      simp [micropoll_set_scan, fd_zero]
    simp only [micropoll_zero, List.replicate_succ]
    rw [h1]
    exact set_scan_inactive fd _ 1 0 (fun s hs => by rw [List.eq_of_mem_replicate hs]; rfl)
      (by decide)
  have hz : ¬ (cb_zero.fn = fn ∧ cb_zero.data = data) := fun h => hfn h.1.symm
  have hq : micropoll_set_cb_scan (micropoll_cb fn data)
      (cb_zero :: List.replicate m cb_zero) 0 (-1) = some 0 := by
    have h1 : micropoll_set_cb_scan (micropoll_cb fn data)
        (cb_zero :: List.replicate m cb_zero) 0 (-1) =
        micropoll_set_cb_scan (micropoll_cb fn data) (List.replicate m cb_zero) 1 0 := by
      simp [micropoll_set_cb_scan, micropoll_cb, hz]
    rw [h1]
    exact cb_scan_nomatch _ _ 1 0
      (fun x hx => by rw [List.eq_of_mem_replicate hx]; exact hz) (by decide)
  unfold micropoll_set_out micropoll_set
  simp only [hnot, if_false, hscan]
  simp [set_cb_at, micropoll_set_cb, p0, p1, p2, micropoll_zero, fd_zero, List.replicate_succ,
    hq, store_fd]

/-- C6. Write-registration idempotence.  If `micropoll_set_out(mp, fd, fn, data)`
with `fd >= 0` returns 0, the same call repeated at once returns 0 and leaves the
reactor (and `errno`) exactly as the first call left them.  Starting from a
zero-initialised reactor (`N > 0` slots, write queues of `M > 0` entries) with a
non-null `fn`, the two calls return 0, an active slot holds `fd`, and the write
queue of every active slot holding `fd` has exactly one entry with a non-null
handler, namely `(fn, data)`. -/
theorem C6_write_registration_idempotent :
    (∀ (M : Nat) (mp : struct_micropoll) (errno fd : Int) (fn data : Nat), 0 ≤ fd →
      (micropoll_set_out M mp errno fd fn data).ret = 0 →
        (micropoll_set_out M (micropoll_set_out M mp errno fd fn data).mp
            (micropoll_set_out M mp errno fd fn data).errno fd fn data).ret = 0 ∧
        (micropoll_set_out M (micropoll_set_out M mp errno fd fn data).mp
            (micropoll_set_out M mp errno fd fn data).errno fd fn data).mp =
          (micropoll_set_out M mp errno fd fn data).mp ∧
        (micropoll_set_out M (micropoll_set_out M mp errno fd fn data).mp
            (micropoll_set_out M mp errno fd fn data).errno fd fn data).errno =
          (micropoll_set_out M mp errno fd fn data).errno) ∧
    (∀ (N M : Nat) (e fd : Int) (fn data : Nat), 0 < N → 0 < M → 0 ≤ fd → fn ≠ 0 →
      (reg_run M (reg_init N M e) [reg_call.set_out fd fn data, reg_call.set_out fd fn data]).ret
          = 0 ∧
      (∃ s ∈ (reg_run M (reg_init N M e)
          [reg_call.set_out fd fn data, reg_call.set_out fd fn data]).mp.fd,
        s.set ≠ 0 ∧ s.fd = fd) ∧
      (∀ s ∈ (reg_run M (reg_init N M e)
          [reg_call.set_out fd fn data, reg_call.set_out fd fn data]).mp.fd,
        s.set ≠ 0 → s.fd = fd →
          s.pollout.filter (fun c => decide (c.fn ≠ 0)) = [micropoll_cb fn data])) := by
  refine ⟨?_, ?_⟩
  · intro M mp errno fd fn data hfd h0
    rw [set_out_twice M mp errno fd fn data hfd h0]
    exact ⟨h0, rfl, rfl⟩
  intro N M e fd fn data hN hM hfd hfn
  obtain ⟨n, rfl⟩ := Nat.exists_eq_succ_of_ne_zero (Nat.pos_iff_ne_zero.1 hN)
  obtain ⟨m, rfl⟩ := Nat.exists_eq_succ_of_ne_zero (Nat.pos_iff_ne_zero.1 hM)
  have h1 := set_out_zero n m e fd fn data hfd hfn
  have h2 := set_out_twice (m + 1) (micropoll_zero (n + 1) (m + 1)) e fd fn data hfd
    (by rw [h1])
  have hrun : reg_run (m + 1) (reg_init (n + 1) (m + 1) e)
      [reg_call.set_out fd fn data, reg_call.set_out fd fn data] =
      micropoll_set_out (m + 1) (micropoll_zero (n + 1) (m + 1)) e fd fn data := by
    simp only [reg_run, reg_step, reg_init]
    exact h2
  rw [hrun, h1]
  refine ⟨rfl, ⟨_, List.mem_cons_self _ _, by simp, rfl⟩, ?_⟩
  intro s hs hs0 _
  rcases List.mem_cons.1 hs with rfl | hs
  · simp [micropoll_cb, hfn, cb_zero]
  · rw [List.eq_of_mem_replicate hs] at hs0
    exact absurd rfl hs0

/-- Witness of C6: on the reactor `mp_two`, whose descriptor 5 has the write
callback `(8, 9)`, and on a zero-initialised reactor of the default build. -/
theorem C6_write_registration_idempotent_witness :
    ((0 : Int) ≤ 5 ∧ (micropoll_set_out 4 mp_two 0 5 6 9).ret = 0 ∧
      (micropoll_set_out 4 (micropoll_set_out 4 mp_two 0 5 6 9).mp
          (micropoll_set_out 4 mp_two 0 5 6 9).errno 5 6 9).mp =
        (micropoll_set_out 4 mp_two 0 5 6 9).mp) ∧
    ((0 : Nat) < 8 ∧ (0 : Nat) < 4 ∧ (0 : Int) ≤ 5 ∧ (6 : Nat) ≠ 0 ∧
      (reg_run 4 (reg_init 8 4 0) [reg_call.set_out 5 6 9, reg_call.set_out 5 6 9]).ret = 0) :=
  ⟨⟨by decide, by decide,
      (C6_write_registration_idempotent.1 4 mp_two 0 5 6 9 (by decide) (by decide)).2.1⟩,
   ⟨by decide, by decide, by decide, by decide,
      (C6_write_registration_idempotent.2 8 4 0 5 6 9 (by decide) (by decide) (by decide)
        (by decide)).1⟩⟩

theorem unique_first (mp : struct_micropoll) (s : Nat) (a : struct_micropoll_fd)
    (hu : micropoll_unique mp) (hs : mp.fd[s]? = some a) (ha : a.set ≠ 0) :
    ∀ (j : Nat) (b : struct_micropoll_fd), j < s → mp.fd[j]? = some b →
      ¬ (b.set ≠ 0 ∧ b.fd = a.fd) := by
  intro j b hj hb hh
  have := (unique_iff_index mp).1 hu j s b a hb hs hh.1 ha hh.2
  omega

theorem set_in_at (M : Nat) (mp : struct_micropoll) (errno fd : Int) (fn data : Nat)
    (s : Nat) (a : struct_micropoll_fd) (hfd : 0 ≤ fd)
    (hs : mp.fd[s]? = some a) (ha : a.set ≠ 0) (hafd : a.fd = fd)
    (hfirst : ∀ (j : Nat) (b : struct_micropoll_fd), j < s → mp.fd[j]? = some b →
      ¬ (b.set ≠ 0 ∧ b.fd = fd)) :
    micropoll_set_in M mp errno fd fn data =
      { ret := 0, errno := errno,
        mp := { fd := mp.fd.set s { a with pollin := micropoll_cb fn data } } } := by
  unfold micropoll_set_in
  rw [micropoll_set_found M mp errno fd POLLIN fn data s a hfd hs ha hafd hfirst]
  have p0 : ¬ POLLIN = 0 := by decide
  simp [set_cb_at, hs, micropoll_set_cb, p0, store_fd]

theorem set_err_at (M : Nat) (mp : struct_micropoll) (errno fd : Int) (fn data : Nat)
    (s : Nat) (a : struct_micropoll_fd) (hfd : 0 ≤ fd)
    (hs : mp.fd[s]? = some a) (ha : a.set ≠ 0) (hafd : a.fd = fd)
    (hfirst : ∀ (j : Nat) (b : struct_micropoll_fd), j < s → mp.fd[j]? = some b →
      ¬ (b.set ≠ 0 ∧ b.fd = fd)) :
    micropoll_set_err M mp errno fd fn data =
      { ret := 0, errno := errno,
        mp := { fd := mp.fd.set s { a with pollerr := micropoll_cb fn data } } } := by
  unfold micropoll_set_err
  rw [micropoll_set_found M mp errno fd POLLERR fn data s a hfd hs ha hafd hfirst]
  have p0 : ¬ POLLERR = 0 := by decide
  have p1 : ¬ POLLERR = POLLIN := by decide
  simp [set_cb_at, hs, micropoll_set_cb, p0, p1, store_fd]

theorem set_holds (M : Nat) (mp : struct_micropoll) (errno fd event : Int) (fn data : Nat)
    (hfd : 0 ≤ fd) (h0 : (micropoll_set M mp errno fd event fn data).ret = 0) :
    ∃ (k : Nat) (a : struct_micropoll_fd),
      (micropoll_set M mp errno fd event fn data).mp.fd[k]? = some a ∧ a.set ≠ 0 ∧ a.fd = fd ∧
      ∀ (j : Nat) (b : struct_micropoll_fd), j < k →
        (micropoll_set M mp errno fd event fn data).mp.fd[j]? = some b →
          ¬ (b.set ≠ 0 ∧ b.fd = fd) := by
  rcases micropoll_set_cases M mp errno fd event fn data hfd with
    ⟨i, a, a', ha, ha0, hafd, hfirst, hcb, heq⟩ | ⟨-, heq⟩ | ⟨d, b, a', hb, -, -, hno, hcb, heq⟩
  · obtain ⟨a3, k1, k2, k3, -⟩ := set_cb_some a errno event (micropoll_cb fn data)
    have haa : a3 = a' := Option.some.inj (k1.symm.trans hcb)
    subst haa
    have hlen : i < mp.fd.length := (List.getElem?_eq_some_iff.1 ha).1
    rw [heq]
    refine ⟨i, a3, by simp [hlen], by rw [k2]; exact ha0, by rw [k3]; exact hafd, ?_⟩
    intro j c hj hc
    simp only at hc
    rw [List.getElem?_set_ne (by omega)] at hc
    exact hfirst j c hj hc
  · rw [heq] at h0
    simp at h0
  · obtain ⟨a3, k1, k2, k3, -⟩ := set_cb_some { fd_zero M with set := 1, fd := fd } errno event
      (micropoll_cb fn data)
    have haa : a3 = a' := Option.some.inj (k1.symm.trans hcb)
    subst haa
    have hlen : d < mp.fd.length := (List.getElem?_eq_some_iff.1 hb).1
    rw [heq]
    refine ⟨d, a3, by simp [hlen], by rw [k2]; simp, by rw [k3], ?_⟩
    intro j c hj hc
    simp only at hc
    rw [List.getElem?_set_ne (by omega)] at hc
    exact hno j c hc

/-- C7. Read/Error registration, last one wins.  In a reactor satisfying the
uniqueness invariant in which `fd >= 0` is held by the active slot `s`,
`micropoll_set_in` returns 0 (and leaves `errno` alone) and the reactor afterwards
is the reactor before with, in slot `s` only, the read callback replaced by
`(fn, data)`: descriptor, active flag, error callback and write queue of slot `s`
and all other slots are as before.  `micropoll_set_err` does the same with the
error callback.  Hence, if registering `(f1, d1)` for read on `fd` returns 0,
registering `(f2, d2)` for read on `fd` next returns 0 and the read callback of
the active slot holding `fd` is then `(f2, d2)`. -/
theorem C7_read_error_last_wins :
    (∀ (M : Nat) (mp : struct_micropoll) (errno fd : Int) (fn data : Nat) (s : Nat)
        (a : struct_micropoll_fd), micropoll_unique mp → 0 ≤ fd → mp.fd[s]? = some a →
        a.set ≠ 0 → a.fd = fd →
      micropoll_set_in M mp errno fd fn data =
          { ret := 0, errno := errno,
            mp := { fd := mp.fd.set s { a with pollin := micropoll_cb fn data } } } ∧
      micropoll_set_err M mp errno fd fn data =
          { ret := 0, errno := errno,
            mp := { fd := mp.fd.set s { a with pollerr := micropoll_cb fn data } } }) ∧
    (∀ (M : Nat) (mp : struct_micropoll) (errno fd : Int) (f1 d1 f2 d2 : Nat),
        micropoll_unique mp → 0 ≤ fd → (micropoll_set_in M mp errno fd f1 d1).ret = 0 →
      (micropoll_set_in M (micropoll_set_in M mp errno fd f1 d1).mp
          (micropoll_set_in M mp errno fd f1 d1).errno fd f2 d2).ret = 0 ∧
      (∃ t ∈ (micropoll_set_in M (micropoll_set_in M mp errno fd f1 d1).mp
          (micropoll_set_in M mp errno fd f1 d1).errno fd f2 d2).mp.fd, t.set ≠ 0 ∧ t.fd = fd) ∧
      (∀ t ∈ (micropoll_set_in M (micropoll_set_in M mp errno fd f1 d1).mp
          (micropoll_set_in M mp errno fd f1 d1).errno fd f2 d2).mp.fd,
        t.set ≠ 0 → t.fd = fd → t.pollin = micropoll_cb f2 d2)) := by
  constructor
  · intro M mp errno fd fn data s a hu hfd hs ha hafd
    have hfirst := unique_first mp s a hu hs ha
    rw [hafd] at hfirst
    exact ⟨set_in_at M mp errno fd fn data s a hfd hs ha hafd hfirst,
      set_err_at M mp errno fd fn data s a hfd hs ha hafd hfirst⟩
  · intro M mp errno fd f1 d1 f2 d2 hu hfd h0
    have hu1 : micropoll_unique (micropoll_set_in M mp errno fd f1 d1).mp :=
      micropoll_set_unique M mp errno fd POLLIN f1 d1 hu
    have hu2 : micropoll_unique (micropoll_set_in M (micropoll_set_in M mp errno fd f1 d1).mp
        (micropoll_set_in M mp errno fd f1 d1).errno fd f2 d2).mp :=
      micropoll_set_unique M _ _ fd POLLIN f2 d2 hu1
    obtain ⟨k, a, hk, ha, hafd, hfirst⟩ := set_holds M mp errno fd POLLIN f1 d1 hfd h0
    have h2 := set_in_at M (micropoll_set_in M mp errno fd f1 d1).mp
      (micropoll_set_in M mp errno fd f1 d1).errno fd f2 d2 k a hfd hk ha hafd hfirst
    have hlen : k < (micropoll_set_in M mp errno fd f1 d1).mp.fd.length :=
      (List.getElem?_eq_some_iff.1 hk).1
    rw [h2] at hu2 ⊢
    have hkk : ((micropoll_set_in M mp errno fd f1 d1).mp.fd.set k
        { a with pollin := micropoll_cb f2 d2 })[k]? =
        some { a with pollin := micropoll_cb f2 d2 } := by simp [hlen]
    refine ⟨rfl, ⟨_, List.getElem?_mem hkk, ha, hafd⟩, ?_⟩
    intro t ht ht0 htfd
    obtain ⟨j, hj⟩ := List.mem_iff_getElem?.1 ht
    have hjk := (unique_iff_index _).1 hu2 j k t _ hj hkk ht0 ha (by rw [htfd]; exact hafd.symm)
    subst hjk
    rw [hkk] at hj
    injection hj with hj
    rw [← hj]

/-- Witness of C7: descriptor 3 of `mp_two` sits in slot 0 with read callback
`(7, 9)`; registering `(6, 2)` for read replaces it. -/
theorem C7_read_error_last_wins_witness :
    micropoll_unique mp_two ∧ (0 : Int) ≤ 3 ∧
      mp_two.fd[0]? = some { fd_zero 4 with set := 1, fd := 3, pollin := ⟨7, 9⟩ } ∧
      micropoll_set_in 4 mp_two 0 3 6 2 =
        { ret := 0, errno := 0,
          mp := { fd := mp_two.fd.set 0 { fd_zero 4 with set := 1, fd := 3, pollin := ⟨6, 2⟩ } } } :=
  ⟨by decide, by decide, by decide,
   (C7_read_error_last_wins.1 4 mp_two 0 3 6 2 0
      { fd_zero 4 with set := 1, fd := 3, pollin := ⟨7, 9⟩ }
      (by decide) (by decide) (by decide) (by decide) (by decide)).1⟩

theorem micropoll_set_nonneg (M : Nat) (mp : struct_micropoll) (errno fd event : Int)
    (fn data : Nat) (h : ∀ s ∈ mp.fd, s.set ≠ 0 → 0 ≤ s.fd) :
    ∀ s ∈ (micropoll_set M mp errno fd event fn data).mp.fd, s.set ≠ 0 → 0 ≤ s.fd := by
  by_cases hfd : fd < 0
  · simpa [micropoll_set, hfd] using h
  · rcases micropoll_set_cases M mp errno fd event fn data (by omega) with
      ⟨i, a, a', ha, ha0, hafd, -, hcb, heq⟩ | ⟨-, heq⟩ | ⟨d, b, a', hb, -, -, -, hcb, heq⟩
    · rw [heq]
      obtain ⟨a3, k1, k2, k3, -⟩ := set_cb_some a errno event (micropoll_cb fn data)
      have haa : a3 = a' := Option.some.inj (k1.symm.trans hcb)
      subst haa
      intro s hs hs0
      rcases List.mem_or_eq_of_mem_set hs with hmem | rfl
      · exact h s hmem hs0
      · rw [k3, hafd]; omega
    · rw [heq]; exact h
    · rw [heq]
      obtain ⟨a3, k1, k2, k3, -⟩ := set_cb_some { fd_zero M with set := 1, fd := fd } errno event
        (micropoll_cb fn data)
      have haa : a3 = a' := Option.some.inj (k1.symm.trans hcb)
      subst haa
      intro s hs hs0
      rcases List.mem_or_eq_of_mem_set hs with hmem | rfl
      · exact h s hmem hs0
      · rw [k3]; simp only; omega

theorem reg_run_nonneg (M : Nat) (calls : List reg_call) :
    ∀ r : set_result, (∀ s ∈ r.mp.fd, s.set ≠ 0 → 0 ≤ s.fd) →
      ∀ s ∈ (reg_run M r calls).mp.fd, s.set ≠ 0 → 0 ≤ s.fd := by
  induction calls with
  | nil => intro r h; exact h
  | cons c cs ih =>
    intro r h
    refine ih _ ?_
    cases c <;> exact micropoll_set_nonneg M r.mp r.errno _ _ _ _ h

/-- C8. Negative descriptors are rejected.  For every reactor, every `fd < 0` and
every event, handler and context, `micropoll_set` returns -1 with
`errno = EINVAL` and the reactor is unchanged; and in every state reached from a
zero-initialised reactor by registration calls, every active slot has a
descriptor `>= 0`. -/
theorem C8_negative_descriptor_rejected :
    (∀ (M : Nat) (mp : struct_micropoll) (errno fd event : Int) (fn data : Nat), fd < 0 →
      micropoll_set M mp errno fd event fn data = { ret := -1, errno := EINVAL, mp := mp }) ∧
    (∀ (N M : Nat) (e : Int) (calls : List reg_call),
      ∀ s ∈ (reg_run M (reg_init N M e) calls).mp.fd, s.set ≠ 0 → 0 ≤ s.fd) := by
  constructor
  · intro M mp errno fd event fn data hfd
    simp [micropoll_set, hfd]
  · intro N M e calls
    refine reg_run_nonneg M calls (reg_init N M e) ?_
    intro s hs hs0
    rw [List.eq_of_mem_replicate hs] at hs0
    exact absurd rfl hs0

/-- Witness of C8: descriptor -1 on the reactor `mp_two`. -/
theorem C8_negative_descriptor_rejected_witness :
    (-1 : Int) < 0 ∧
      micropoll_set 4 mp_two 0 (-1) POLLIN 7 9 = { ret := -1, errno := EINVAL, mp := mp_two } :=
  ⟨by decide, C8_negative_descriptor_rejected.1 4 mp_two 0 (-1) POLLIN 7 9 (by decide)⟩

theorem set_cb_unrecognised (a : struct_micropoll_fd) (errno event : Int)
    (cb : struct_micropoll_cb) (h1 : event ≠ POLLIN) (h2 : event ≠ POLLOUT)
    (h3 : event ≠ POLLERR) :
    micropoll_set_cb (some a) errno event cb =
      { ret := -1, errno := if event = 0 then errno else EINVAL, mfd := some a } := by
  by_cases h0 : event = 0
  · simp [micropoll_set_cb, h0]
  · simp [micropoll_set_cb, h0, h1, h2, h3]

/-- C9 (counterexample).  In the default build with descriptors 0..7 registered,
`micropoll_set` for the new descriptor 8 with the unrecognised event
`POLLIN | POLLOUT = 5` returns -1 with `errno = ENOBUFS`, not `EINVAL`. -/
theorem C9_counterexample_full_table :
    (0 : Int) ≤ 8 ∧ (5 : Int) ≠ POLLIN ∧ (5 : Int) ≠ POLLOUT ∧ (5 : Int) ≠ POLLERR ∧
      (micropoll_set 4 mp_full 0 8 5 1 0).ret = -1 ∧
      (micropoll_set 4 mp_full 0 8 5 1 0).errno = ENOBUFS ∧
      (micropoll_set 4 mp_full 0 8 5 1 0).errno ≠ EINVAL := by
  decide

/-- C9 (amended).  For every reactor, every `fd >= 0` and every event that is not
exactly `POLLIN`, `POLLOUT` or `POLLERR` (0 and combinations included),
`micropoll_set` returns -1.  `errno` is `EINVAL` when moreover the event is not 0
and the descriptor has or gets a slot (some slot is inactive, or an active slot
holds `fd`); when every slot is active and none holds `fd`, `errno` is
`ENOBUFS`. -/
theorem C9_unrecognised_event_rejected (M : Nat) (mp : struct_micropoll)
    (errno fd event : Int) (fn data : Nat) (hfd : 0 ≤ fd) (h1 : event ≠ POLLIN)
    (h2 : event ≠ POLLOUT) (h3 : event ≠ POLLERR) :
    (micropoll_set M mp errno fd event fn data).ret = -1 ∧
    (event ≠ 0 → ((∃ s ∈ mp.fd, s.set = 0) ∨ (∃ s ∈ mp.fd, s.set ≠ 0 ∧ s.fd = fd)) →
      (micropoll_set M mp errno fd event fn data).errno = EINVAL) ∧
    ((∀ s ∈ mp.fd, s.set ≠ 0 ∧ s.fd ≠ fd) →
      (micropoll_set M mp errno fd event fn data).errno = ENOBUFS) := by
  rcases micropoll_set_cases M mp errno fd event fn data hfd with
    ⟨i, a, a', ha, ha0, hafd, -, -, heq⟩ | ⟨hall, heq⟩ | ⟨d, b, a', hb, hb0, -, -, -, heq⟩
  · rw [heq, set_cb_unrecognised a errno event _ h1 h2 h3]
    refine ⟨rfl, fun h0 _ => by simp [h0], fun hfull => ?_⟩
    exact absurd hafd (hfull a (List.getElem?_mem ha)).2
  · rw [heq]
    refine ⟨rfl, fun _ hex => ?_, fun _ => rfl⟩
    rcases hex with ⟨s, hs, hs0⟩ | ⟨s, hs, -, hsfd⟩
    · obtain ⟨j, hj⟩ := List.mem_iff_getElem?.1 hs
      exact absurd hs0 (hall j s hj).1
    · obtain ⟨j, hj⟩ := List.mem_iff_getElem?.1 hs
      exact absurd hsfd (hall j s hj).2
  · rw [heq, set_cb_unrecognised _ errno event _ h1 h2 h3]
    refine ⟨rfl, fun h0 _ => by simp [h0], fun hfull => ?_⟩
    exact absurd hb0 (hfull b (List.getElem?_mem hb)).1

/-- Witness of C9 (amended): the event `POLLIN | POLLOUT = 5` on descriptor 3 of
`mp_two`. -/
theorem C9_unrecognised_event_rejected_witness :
    (0 : Int) ≤ 3 ∧ (5 : Int) ≠ POLLIN ∧ (5 : Int) ≠ POLLOUT ∧ (5 : Int) ≠ POLLERR ∧
      (5 : Int) ≠ 0 ∧ (∃ s ∈ mp_two.fd, s.set ≠ 0 ∧ s.fd = 3) ∧
      (micropoll_set 4 mp_two 0 3 5 7 9).ret = -1 ∧
      (micropoll_set 4 mp_two 0 3 5 7 9).errno = EINVAL :=
  ⟨by decide, by decide, by decide, by decide, by decide, by decide,
   (C9_unrecognised_event_rejected 4 mp_two 0 3 5 7 9 (by decide) (by decide) (by decide)
      (by decide)).1,
   (C9_unrecognised_event_rejected 4 mp_two 0 3 5 7 9 (by decide) (by decide) (by decide)
      (by decide)).2.1 (by decide) (Or.inr (by decide))⟩

theorem set_cb_pollout_ret (a : struct_micropoll_fd) (e : Int) (cb : struct_micropoll_cb)
    (hq : a.pollout ≠ []) :
    (micropoll_set_cb (some a) e POLLOUT cb).ret = 0 ∧
      (micropoll_set_cb (some a) e POLLOUT cb).errno = e := by
  have p0 : ¬ POLLOUT = 0 := by decide
  have p1 : ¬ POLLOUT = POLLIN := by decide
  have p2 : ¬ POLLOUT = POLLERR := by decide
  obtain ⟨x, rest, hx⟩ := List.exists_cons_of_ne_nil hq
  cases hscan : micropoll_set_cb_scan cb a.pollout 0 (-1) with
  | none => simp [micropoll_set_cb, p0, p1, p2, hscan]
  | some e' =>
    have he : e' ≠ -1 := by
      intro he
      rw [hx] at hscan
      by_cases hm : x.fn = cb.fn ∧ x.data = cb.data
      · simp [micropoll_set_cb_scan, hm] at hscan
      · have h1 : micropoll_set_cb_scan cb rest 1 0 = some e' := by
          simpa [micropoll_set_cb_scan, hm] using hscan
        have := (cb_scan_some cb rest 1 0 e' h1).1 (by decide)
        omega
    simp [micropoll_set_cb, p0, p1, p2, hscan, he]

/-- C10 (counterexample).  Descriptor 3 of `mp_two` has the read callback `(7, 9)`
in slot 0; `micropoll_set_in` with a null handler returns 0 and replaces it by
`(null, 9)`. -/
theorem C10_counterexample_null_handler :
    mp_two.fd[0]? = some { fd_zero 4 with set := 1, fd := 3, pollin := ⟨7, 9⟩ } ∧
      (micropoll_set_in 4 mp_two 0 3 0 9).ret = 0 ∧
      (micropoll_set_in 4 mp_two 0 3 0 9).mp ≠ mp_two ∧
      (micropoll_set_in 4 mp_two 0 3 0 9).mp.fd[0]? =
        some { fd_zero 4 with set := 1, fd := 3, pollin := ⟨0, 9⟩ } := by
  decide

/-- C10 (amended).  A null handler is accepted like any other.  In a reactor of a
build with write queues of `M > 0` entries, for `fd >= 0` and an event among
`POLLIN`, `POLLOUT`, `POLLERR`, `micropoll_set` with a null handler returns -1 only
when every slot is active and none holds `fd` (then `errno = ENOBUFS` and the
reactor is unchanged), and returns 0 otherwise.  When `fd` is held by the active
slot `s` of a reactor satisfying the uniqueness invariant, `micropoll_set_in`
(`micropoll_set_err`) with a null handler returns 0 and overwrites the read
(error) callback of slot `s` with `(null, data)`, changing nothing else. -/
theorem C10_null_handler_accepted :
    (∀ (N M : Nat) (mp : struct_micropoll) (errno fd event : Int) (data : Nat),
        micropoll_wf N M mp → 0 < M → 0 ≤ fd →
        (event = POLLIN ∨ event = POLLOUT ∨ event = POLLERR) →
      ((∀ s ∈ mp.fd, s.set ≠ 0 ∧ s.fd ≠ fd) →
        micropoll_set M mp errno fd event 0 data = { ret := -1, errno := ENOBUFS, mp := mp }) ∧
      (¬ (∀ s ∈ mp.fd, s.set ≠ 0 ∧ s.fd ≠ fd) →
        (micropoll_set M mp errno fd event 0 data).ret = 0)) ∧
    (∀ (M : Nat) (mp : struct_micropoll) (errno fd : Int) (data : Nat) (s : Nat)
        (a : struct_micropoll_fd), micropoll_unique mp → 0 ≤ fd → mp.fd[s]? = some a →
        a.set ≠ 0 → a.fd = fd →
      micropoll_set_in M mp errno fd 0 data =
          { ret := 0, errno := errno,
            mp := { fd := mp.fd.set s { a with pollin := micropoll_cb 0 data } } } ∧
      micropoll_set_err M mp errno fd 0 data =
          { ret := 0, errno := errno,
            mp := { fd := mp.fd.set s { a with pollerr := micropoll_cb 0 data } } }) := by
  constructor
  · intro N M mp errno fd event data hwf hM hfd hev
    have hret : ∀ a : struct_micropoll_fd, a.pollout ≠ [] →
        (micropoll_set_cb (some a) errno event (micropoll_cb 0 data)).ret = 0 := by
      intro a hq
      rcases hev with rfl | rfl | rfl
      · have p0 : ¬ POLLIN = 0 := by decide
        simp [micropoll_set_cb, p0]
      · exact (set_cb_pollout_ret a errno _ hq).1
      · have p0 : ¬ POLLERR = 0 := by decide
        have p1 : ¬ POLLERR = POLLIN := by decide
        simp [micropoll_set_cb, p0, p1]
    rcases micropoll_set_cases M mp errno fd event 0 data hfd with
      ⟨i, a, a', ha, ha0, hafd, -, -, heq⟩ | ⟨hall, heq⟩ | ⟨d, b, a', hb, hb0, -, -, -, heq⟩
    · refine ⟨fun hfull => absurd hafd (hfull a (List.getElem?_mem ha)).2, fun _ => ?_⟩
      rw [heq]
      refine hret a ?_
      have := hwf.2 a (List.getElem?_mem ha)
      intro h
      rw [h] at this
      simp at this
      omega
    · refine ⟨fun _ => heq, fun hn => absurd (fun s hs => ?_) hn⟩
      obtain ⟨j, hj⟩ := List.mem_iff_getElem?.1 hs
      exact hall j s hj
    · refine ⟨fun hfull => absurd hb0 (hfull b (List.getElem?_mem hb)).1, fun _ => ?_⟩
      rw [heq]
      refine hret _ ?_
      simp only [fd_zero]
      intro h
      have := congrArg List.length h
      simp at this
      omega
  · intro M mp errno fd data s a hu hfd hs ha hafd
    have hfirst := unique_first mp s a hu hs ha
    rw [hafd] at hfirst
    exact ⟨set_in_at M mp errno fd 0 data s a hfd hs ha hafd hfirst,
      set_err_at M mp errno fd 0 data s a hfd hs ha hafd hfirst⟩

/-- Witness of C10 (amended): a null read handler on descriptor 3 of `mp_two`. -/
theorem C10_null_handler_accepted_witness :
    (micropoll_wf 8 4 mp_two ∧ (0 : Nat) < 4 ∧ (0 : Int) ≤ 3 ∧
      ¬ (∀ s ∈ mp_two.fd, s.set ≠ 0 ∧ s.fd ≠ 3) ∧
      (micropoll_set 4 mp_two 0 3 POLLIN 0 9).ret = 0) ∧
    (micropoll_unique mp_two ∧
      mp_two.fd[0]? = some { fd_zero 4 with set := 1, fd := 3, pollin := ⟨7, 9⟩ } ∧
      micropoll_set_in 4 mp_two 0 3 0 9 =
        { ret := 0, errno := 0,
          mp := { fd := mp_two.fd.set 0 { fd_zero 4 with set := 1, fd := 3, pollin := ⟨0, 9⟩ } } }) :=
  ⟨⟨⟨by decide, by decide⟩, by decide, by decide, by decide,
     ((C10_null_handler_accepted.1 8 4 mp_two 0 3 POLLIN 9 ⟨by decide, by decide⟩ (by decide)
        (by decide) (Or.inl rfl)).2 (by decide))⟩,
   ⟨by decide, by decide,
     (C10_null_handler_accepted.2 4 mp_two 0 3 9 0
        { fd_zero 4 with set := 1, fd := 3, pollin := ⟨7, 9⟩ }
        (by decide) (by decide) (by decide) (by decide) (by decide)).1⟩⟩

theorem project_inactive :
    ∀ (l : List struct_micropoll_fd) (i : Nat), (∀ s ∈ l, s.set = 0) →
      micropoll_project l i = [] := by
  intro l
  induction l with
  | nil => intro i _; rfl
  | cons s rest ih =>
    intro i h
    have hs := h s (by simp)
    simp only [micropoll_project, hs, true_or, if_true]
    exact ih (i + 1) (fun t ht => h t (by simp [ht]))

/-- C11. Nothing to watch.  For a reactor with no active slot, every timeout,
every `poll` and every handler code, `micropoll` returns -2, leaves `errno` and the
reactor unchanged, invokes no handler and makes no call of `poll`; the outcome
does not mention the `poll` oracle at all. -/
theorem C11_nothing_to_watch (env : handler_env) (poll : poll_oracle) (mp : struct_micropoll)
    (errno timeout : Int) (h : ∀ s ∈ mp.fd, s.set = 0) :
    micropoll env poll mp errno timeout =
      { ret := -2, errno := errno, mp := mp, calls := [], polls := [] } := by
  have hp := project_inactive mp.fd 0 h
  simp [micropoll, hp]

/-- Witness of C11: `micropoll(zeroed reactor, 100) = -2`, whatever `poll` would
have reported. -/
theorem C11_nothing_to_watch_witness :
    (∀ s ∈ (micropoll_zero 8 4).fd, s.set = 0) ∧
      micropoll (env_const 1) (poll_const 1 POLLIN) (micropoll_zero 8 4) 0 100 =
        { ret := -2, errno := 0, mp := micropoll_zero 8 4, calls := [], polls := [] } :=
  ⟨by decide,
   C11_nothing_to_watch (env_const 1) (poll_const 1 POLLIN) (micropoll_zero 8 4) 0 100
     (by decide)⟩

/-- C13. Timeout and OS failure pass through.  When at least one entry is
projected and `poll` returns `r <= 0`, `micropoll` returns exactly `r` with the
`errno` that `poll` left, the reactor is unchanged, no handler is invoked and
`poll` was called exactly once, with the projected array and the timeout; the
`revents` that `poll` wrote play no part. -/
theorem C13_timeout_and_failure_pass_through (env : handler_env) (poll : poll_oracle)
    (mp : struct_micropoll) (errno timeout : Int)
    (hproj : micropoll_project mp.fd 0 ≠ [])
    (hret : (poll ((micropoll_project mp.fd 0).map Prod.fst) timeout errno).ret ≤ 0) :
    micropoll env poll mp errno timeout =
      { ret := (poll ((micropoll_project mp.fd 0).map Prod.fst) timeout errno).ret,
        errno := (poll ((micropoll_project mp.fd 0).map Prod.fst) timeout errno).errno,
        mp := mp, calls := [],
        polls := [((micropoll_project mp.fd 0).map Prod.fst, timeout)] } := by
  have hlen : ¬ (micropoll_project mp.fd 0).length = 0 := by
    intro h
    exact hproj (List.length_eq_zero.1 h)
  simp only [micropoll, hlen, if_false, hret, if_true]

/-- Witness of C13: descriptor 3 is registered for read; `poll` times out (0) or
fails (-1 with `errno = EINTR`) while reporting `POLLIN | POLLERR`. -/
theorem C13_timeout_and_failure_pass_through_witness :
    micropoll_project mp_reader.fd 0 ≠ [] ∧
      (micropoll (env_const 0) (poll_list 0 0 [9]) mp_reader 0 100).ret = 0 ∧
      (micropoll (env_const 0) (poll_list 0 0 [9]) mp_reader 0 100).calls = [] ∧
      micropoll (env_const 0) (poll_list (-1) EINTR [9]) mp_reader 0 100 =
        { ret := -1, errno := EINTR, mp := mp_reader, calls := [],
          polls := [([{ fd := 3, events := POLLIN, revents := 0 }], 100)] } :=
  ⟨by decide,
   by rw [C13_timeout_and_failure_pass_through (env_const 0) (poll_list 0 0 [9]) mp_reader 0 100
     (by decide) (by decide)]; rfl,
   by rw [C13_timeout_and_failure_pass_through (env_const 0) (poll_list 0 0 [9]) mp_reader 0 100
     (by decide) (by decide)],
   by rw [C13_timeout_and_failure_pass_through (env_const 0) (poll_list (-1) EINTR [9]) mp_reader
     0 100 (by decide) (by decide)]; decide⟩

/-- C18. Transient-error classifier.  `micropoll_retry(ret)` is non-zero exactly
when `ret = -1` and `errno` is `EAGAIN`, `EWOULDBLOCK`, `EINTR` or `ENOBUFS`; it is
0 for every `ret` other than -1 whatever `errno` holds, and 0 for `ret = -1` with
`errno = EINVAL` or `EBADF`. -/
theorem C18_transient_error_classifier :
    (∀ ret e : Int, micropoll_retry ret e ≠ 0 ↔
      (ret = -1 ∧ (e = EAGAIN ∨ e = EWOULDBLOCK ∨ e = EINTR ∨ e = ENOBUFS))) ∧
    (∀ ret e : Int, ret ≠ -1 → micropoll_retry ret e = 0) ∧
    (∀ e : Int, e ≠ EAGAIN → e ≠ EWOULDBLOCK → e ≠ EINTR → e ≠ ENOBUFS →
      micropoll_retry (-1) e = 0) ∧
    micropoll_retry (-1) EINVAL = 0 ∧ micropoll_retry (-1) EBADF = 0 := by
  refine ⟨?_, ?_, ?_, by decide, by decide⟩
  · intro ret e
    unfold micropoll_retry
    split_ifs with h
    · simp [h]
    · simp [h]
  · intro ret e h
    simp [micropoll_retry, h]
  · intro e h1 h2 h3 h4
    simp [micropoll_retry, h1, h2, h3, h4]

/-- Witness of C18: the results 0, 3 and -2 with `errno = EAGAIN`, and the result
-1 with `errno = 1` (`EPERM`). -/
theorem C18_transient_error_classifier_witness :
    ((0 : Int) ≠ -1 ∧ micropoll_retry 0 EAGAIN = 0) ∧
    ((3 : Int) ≠ -1 ∧ micropoll_retry 3 EAGAIN = 0) ∧
    ((-2 : Int) ≠ -1 ∧ micropoll_retry (-2) EAGAIN = 0) ∧
    ((1 : Int) ≠ EAGAIN ∧ (1 : Int) ≠ EWOULDBLOCK ∧ (1 : Int) ≠ EINTR ∧ (1 : Int) ≠ ENOBUFS ∧
      micropoll_retry (-1) 1 = 0) :=
  ⟨⟨by decide, C18_transient_error_classifier.2.1 0 EAGAIN (by decide)⟩,
   ⟨by decide, C18_transient_error_classifier.2.1 3 EAGAIN (by decide)⟩,
   ⟨by decide, C18_transient_error_classifier.2.1 (-2) EAGAIN (by decide)⟩,
   ⟨by decide, by decide, by decide, by decide,
    C18_transient_error_classifier.2.2.1 1 (by decide) (by decide) (by decide) (by decide)⟩⟩

theorem cb_scan_none_iff (cb : struct_micropoll_cb) :
    ∀ (q : List struct_micropoll_cb) (i : Nat) (e : Int),
      micropoll_set_cb_scan cb q i e = none ↔ cb ∈ q := by
  intro q
  induction q with
  | nil => intro i e; simp [micropoll_set_cb_scan]
  | cons x rest ih =>
    intro i e
    by_cases hx : x.fn = cb.fn ∧ x.data = cb.data
    · have hxe : x = cb := by
        cases x; cases cb; simp only [struct_micropoll_cb.mk.injEq]; exact hx
      simp [micropoll_set_cb_scan, hx, hxe]
    · have hne : ¬ cb = x := by
        intro h; apply hx; rw [h]; exact ⟨rfl, rfl⟩
      by_cases he : e = -1
      · simp only [micropoll_set_cb_scan, hx, he, if_false, if_true, List.mem_cons, hne, false_or]
        exact ih (i + 1) _
      · simp only [micropoll_set_cb_scan, hx, he, if_false, List.mem_cons, hne, false_or]
        exact ih (i + 1) _

theorem set_cb_pollout_cases (a : struct_micropoll_fd) (e : Int) (cb : struct_micropoll_cb)
    (hq : a.pollout ≠ []) :
    (cb ∈ a.pollout →
      micropoll_set_cb (some a) e POLLOUT cb = { ret := 0, errno := e, mfd := some a }) ∧
    (cb ∉ a.pollout →
      micropoll_set_cb (some a) e POLLOUT cb =
        { ret := 0, errno := e, mfd := some { a with pollout := cb :: a.pollout.tail } }) := by
  have p0 : ¬ POLLOUT = 0 := by decide
  have p1 : ¬ POLLOUT = POLLIN := by decide
  have p2 : ¬ POLLOUT = POLLERR := by decide
  constructor
  · intro hmem
    have hscan := (cb_scan_none_iff cb a.pollout 0 (-1)).2 hmem
    simp [micropoll_set_cb, p0, p1, p2, hscan]
  · intro hmem
    obtain ⟨x, rest, hx⟩ := List.exists_cons_of_ne_nil hq
    cases hscan : micropoll_set_cb_scan cb a.pollout 0 (-1) with
    | none => exact absurd ((cb_scan_none_iff cb a.pollout 0 (-1)).1 hscan) hmem
    | some e' =>
      have hret := (set_cb_pollout_ret a e cb hq).1
      have he : e' ≠ -1 := by
        intro he
        simp [micropoll_set_cb, p0, p1, p2, hscan, he] at hret
      have he0 : e' = 0 := by
        have := ((cb_scan_some cb a.pollout 0 (-1) e' hscan).2 rfl he).2
        simpa using this
      subst he0
      rw [hx] at hscan
      simp [micropoll_set_cb, p0, p1, p2, hscan, hx]

theorem set_cb_pollout_tail (a : struct_micropoll_fd) (e event : Int) (cb : struct_micropoll_cb) :
    ∃ a', (micropoll_set_cb (some a) e event cb).mfd = some a' ∧
      a'.pollout.tail = a.pollout.tail ∧ a'.pollout.length = a.pollout.length := by
  have q0 : ¬ POLLIN = 0 := by decide
  have q1 : ¬ POLLERR = 0 := by decide
  have q2 : ¬ POLLERR = POLLIN := by decide
  have p0 : ¬ POLLOUT = 0 := by decide
  have p1 : ¬ POLLOUT = POLLIN := by decide
  have p2 : ¬ POLLOUT = POLLERR := by decide
  by_cases h0 : event = 0
  · exact ⟨a, by simp [micropoll_set_cb, h0], rfl, rfl⟩
  by_cases h1 : event = POLLIN
  · subst h1
    exact ⟨{ a with pollin := cb }, by simp [micropoll_set_cb, q0], rfl, rfl⟩
  by_cases h2 : event = POLLERR
  · subst h2
    exact ⟨{ a with pollerr := cb }, by simp [micropoll_set_cb, q1, q2], rfl, rfl⟩
  by_cases h3 : event = POLLOUT
  · subst h3
    by_cases hq : a.pollout = []
    · have hscan : micropoll_set_cb_scan cb a.pollout 0 (-1) = some (-1) := by rw [hq]; rfl
      exact ⟨a, by simp [micropoll_set_cb, p0, p1, p2, hscan], rfl, rfl⟩
    · by_cases hmem : cb ∈ a.pollout
      · exact ⟨a, by rw [(set_cb_pollout_cases a e cb hq).1 hmem], rfl, rfl⟩
      · obtain ⟨x, rest, hx⟩ := List.exists_cons_of_ne_nil hq
        refine ⟨{ a with pollout := cb :: a.pollout.tail },
          by rw [(set_cb_pollout_cases a e cb hq).2 hmem], rfl, ?_⟩
        simp [hx]
  · exact ⟨a, by simp [micropoll_set_cb, h0, h1, h2, h3], rfl, rfl⟩

theorem micropoll_set_tail (M : Nat) (mp : struct_micropoll) (errno fd event : Int)
    (fn data : Nat) (h : ∀ s ∈ mp.fd, s.pollout.tail = List.replicate (M - 1) cb_zero) :
    ∀ s ∈ (micropoll_set M mp errno fd event fn data).mp.fd,
      s.pollout.tail = List.replicate (M - 1) cb_zero := by
  by_cases hfd : fd < 0
  · simpa [micropoll_set, hfd] using h
  · rcases micropoll_set_cases M mp errno fd event fn data (by omega) with
      ⟨i, a, a', ha, -, -, -, hcb, heq⟩ | ⟨-, heq⟩ | ⟨d, b, a', hb, -, -, -, hcb, heq⟩
    · rw [heq]
      obtain ⟨a3, k1, k2, -⟩ := set_cb_pollout_tail a errno event (micropoll_cb fn data)
      have haa : a3 = a' := Option.some.inj (k1.symm.trans hcb)
      subst haa
      intro s hs
      rcases List.mem_or_eq_of_mem_set hs with hmem | rfl
      · exact h s hmem
      · rw [k2]; exact h a (List.getElem?_mem ha)
    · rw [heq]; exact h
    · rw [heq]
      obtain ⟨a3, k1, k2, -⟩ := set_cb_pollout_tail { fd_zero M with set := 1, fd := fd } errno
        event (micropoll_cb fn data)
      have haa : a3 = a' := Option.some.inj (k1.symm.trans hcb)
      subst haa
      intro s hs
      rcases List.mem_or_eq_of_mem_set hs with hmem | rfl
      · exact h s hmem
      · rw [k2]
        cases M with
        | zero => rfl
        | succ m => simp [fd_zero, List.replicate_succ]

theorem reg_run_tail (M : Nat) (calls : List reg_call) :
    ∀ r : set_result, (∀ s ∈ r.mp.fd, s.pollout.tail = List.replicate (M - 1) cb_zero) →
      ∀ s ∈ (reg_run M r calls).mp.fd, s.pollout.tail = List.replicate (M - 1) cb_zero := by
  induction calls with
  | nil => intro r h; exact h
  | cons c cs ih =>
    intro r h
    refine ih _ ?_
    cases c <;> exact micropoll_set_tail M r.mp r.errno _ _ _ _ h

/-- C20. Write registration only ever writes the front position and cannot fail.
For every slot with a write queue of `MICROPOLL_MAX_POLLOUT > 0` entries and every
callback `cb`, `micropoll_set_cb(slot, POLLOUT, cb)` returns 0 and leaves `errno`
alone; if `cb` equals some queue entry the slot is unchanged, otherwise only
position 0 of the queue changes and holds `cb` afterwards.  Hence in every state
reached from a zero-initialised reactor by registration calls, positions
`1 .. MICROPOLL_MAX_POLLOUT - 1` of every slot's write queue (active slots
included) hold the all-zero callback. -/
theorem C20_write_registration_front_only :
    (∀ (a : struct_micropoll_fd) (e : Int) (cb : struct_micropoll_cb), a.pollout ≠ [] →
      (micropoll_set_cb (some a) e POLLOUT cb).ret = 0 ∧
      (micropoll_set_cb (some a) e POLLOUT cb).errno = e ∧
      (cb ∈ a.pollout → (micropoll_set_cb (some a) e POLLOUT cb).mfd = some a) ∧
      (cb ∉ a.pollout → (micropoll_set_cb (some a) e POLLOUT cb).mfd =
        some { a with pollout := cb :: a.pollout.tail })) ∧
    (∀ (N M : Nat) (e : Int) (calls : List reg_call),
      ∀ s ∈ (reg_run M (reg_init N M e) calls).mp.fd,
        ∀ (k : Nat) (c : struct_micropoll_cb), 1 ≤ k → s.pollout[k]? = some c → c = cb_zero) := by
  constructor
  · intro a e cb hq
    refine ⟨(set_cb_pollout_ret a e cb hq).1, (set_cb_pollout_ret a e cb hq).2, ?_, ?_⟩
    · intro h; rw [(set_cb_pollout_cases a e cb hq).1 h]
    · intro h; rw [(set_cb_pollout_cases a e cb hq).2 h]
  · intro N M e calls s hs k c hk hc
    have htail := reg_run_tail M calls (reg_init N M e) (by
      intro t ht
      rw [List.eq_of_mem_replicate ht]
      cases M with
      | zero => rfl
      | succ m => simp [fd_zero, List.replicate_succ]) s hs
    obtain ⟨k', rfl⟩ : ∃ k', k = k' + 1 := ⟨k - 1, by omega⟩
    cases hq : s.pollout with
    | nil => rw [hq] at hc; simp at hc
    | cons x rest =>
      rw [hq] at hc htail
      simp only [List.getElem?_cons_succ] at hc
      simp only [List.tail_cons] at htail
      rw [htail] at hc
      exact (List.eq_of_mem_replicate (List.getElem?_mem hc))

/-- Witness of C20: the full queue `fd_full_queue` takes the new callback `(5, 5)`
at position 0, and keeps the queue when `(3, 3)`, already queued, is registered. -/
theorem C20_write_registration_front_only_witness :
    fd_full_queue.pollout ≠ [] ∧
      (⟨5, 5⟩ : struct_micropoll_cb) ∉ fd_full_queue.pollout ∧
      (micropoll_set_cb (some fd_full_queue) 0 POLLOUT ⟨5, 5⟩).mfd =
        some { fd_full_queue with pollout := [⟨5, 5⟩, ⟨2, 2⟩, ⟨3, 3⟩, ⟨4, 4⟩] } ∧
      (⟨3, 3⟩ : struct_micropoll_cb) ∈ fd_full_queue.pollout ∧
      (micropoll_set_cb (some fd_full_queue) 0 POLLOUT ⟨3, 3⟩).mfd = some fd_full_queue ∧
      ({ fd_one_writer with pollout := [⟨8, 9⟩, cb_zero, cb_zero, cb_zero] } ∈
        (reg_run 4 (reg_init 8 4 0)
          [reg_call.set_out 5 7 9, reg_call.set_out 5 8 9]).mp.fd) ∧
      ([⟨8, 9⟩, cb_zero, cb_zero, cb_zero] : List struct_micropoll_cb)[1]? = some cb_zero :=
  ⟨by decide, by decide,
   (C20_write_registration_front_only.1 fd_full_queue 0 ⟨5, 5⟩ (by decide)).2.2.2 (by decide),
   by decide,
   (C20_write_registration_front_only.1 fd_full_queue 0 ⟨3, 3⟩ (by decide)).2.2.1 (by decide),
   by decide,
   congrArg some (C20_write_registration_front_only.2 8 4 0
     [reg_call.set_out 5 7 9, reg_call.set_out 5 8 9]
     { fd_one_writer with pollout := [⟨8, 9⟩, cb_zero, cb_zero, cb_zero] } (by decide)
     1 ([⟨8, 9⟩, cb_zero, cb_zero, cb_zero] : List struct_micropoll_cb)[1] (by decide)
     (by decide))⟩

theorem micropoll_set_new (M : Nat) (mp : struct_micropoll) (errno fd event : Int)
    (fn data : Nat) (d : Nat) (b : struct_micropoll_fd) (hfd : 0 ≤ fd)
    (hnew : ∀ s ∈ mp.fd, s.set ≠ 0 → s.fd ≠ fd)
    (hd : mp.fd[d]? = some b) (hb : b.set = 0)
    (hlow : ∀ (j : Nat) (c : struct_micropoll_fd), j < d → mp.fd[j]? = some c → c.set ≠ 0) :
    ∃ a', (micropoll_set_cb (some { fd_zero M with set := 1, fd := fd }) errno event
        (micropoll_cb fn data)).mfd = some a' ∧
      micropoll_set M mp errno fd event fn data =
        { ret := (micropoll_set_cb (some { fd_zero M with set := 1, fd := fd }) errno event
            (micropoll_cb fn data)).ret,
          errno := (micropoll_set_cb (some { fd_zero M with set := 1, fd := fd }) errno event
            (micropoll_cb fn data)).errno,
          mp := { fd := mp.fd.set d a' } } := by
  rcases micropoll_set_cases M mp errno fd event fn data hfd with
    ⟨i, a, a', ha, ha0, hafd, -, -, -⟩ | ⟨hall, -⟩ | ⟨d', b', a', hb', hb0, hlow', -, hcb, heq⟩
  · exact absurd hafd (hnew a (List.getElem?_mem ha) ha0)
  · exact absurd hb (hall d b hd).1
  · have hdd : d' = d := by
      rcases Nat.lt_trichotomy d' d with h | h | h
      · exact absurd hb0 (hlow d' b' h hb')
      · exact h
      · exact absurd hb (hlow' d b h hd)
    subst hdd
    exact ⟨a', hcb, heq⟩

/-- C19. Slot allocation and clean reuse.  In a build with write queues of
`M > 0` entries, when `fd >= 0` is held by no active slot and `d` is the lowest
index of an inactive slot, `micropoll_set` with `POLLIN`, `POLLERR` or `POLLOUT`
returns 0, leaves `errno` alone, and the reactor afterwards is the reactor before
with slot `d` replaced by a slot that is active (`set = 1`), holds `fd`, and has
every callback field all-zero except the one just registered; all other slots
are unchanged.  Whatever slot `d` held before (callbacks left behind included)
does not appear in the result. -/
theorem C19_slot_allocation_clean_reuse (M : Nat) (mp : struct_micropoll) (errno fd : Int)
    (fn data : Nat) (d : Nat) (b : struct_micropoll_fd) (hM : 0 < M) (hfd : 0 ≤ fd)
    (hnew : ∀ s ∈ mp.fd, s.set ≠ 0 → s.fd ≠ fd)
    (hd : mp.fd[d]? = some b) (hb : b.set = 0)
    (hlow : ∀ (j : Nat) (c : struct_micropoll_fd), j < d → mp.fd[j]? = some c → c.set ≠ 0) :
    micropoll_set M mp errno fd POLLIN fn data =
      { ret := 0, errno := errno,
        mp := { fd := mp.fd.set d { set := 1, fd := fd, pollin := micropoll_cb fn data,
                                    pollerr := cb_zero,
                                    pollout := List.replicate M cb_zero } } } ∧
    micropoll_set M mp errno fd POLLERR fn data =
      { ret := 0, errno := errno,
        mp := { fd := mp.fd.set d { set := 1, fd := fd, pollin := cb_zero,
                                    pollerr := micropoll_cb fn data,
                                    pollout := List.replicate M cb_zero } } } ∧
    micropoll_set M mp errno fd POLLOUT fn data =
      { ret := 0, errno := errno,
        mp := { fd := mp.fd.set d { set := 1, fd := fd, pollin := cb_zero, pollerr := cb_zero,
                                    pollout := micropoll_cb fn data ::
                                      List.replicate (M - 1) cb_zero } } } := by
  have q0 : ¬ POLLIN = 0 := by decide
  have q1 : ¬ POLLERR = 0 := by decide
  have q2 : ¬ POLLERR = POLLIN := by decide
  obtain ⟨m, rfl⟩ : ∃ m, M = m + 1 := ⟨M - 1, by omega⟩
  refine ⟨?_, ?_, ?_⟩
  · obtain ⟨a', ha', heq⟩ := micropoll_set_new (m + 1) mp errno fd POLLIN fn data d b hfd hnew hd
      hb hlow
    rw [heq]
    simp only [micropoll_set_cb, q0, if_false, if_true] at ha' ⊢
    rw [← Option.some.inj ha']
    rfl
  · obtain ⟨a', ha', heq⟩ := micropoll_set_new (m + 1) mp errno fd POLLERR fn data d b hfd hnew hd
      hb hlow
    rw [heq]
    simp only [micropoll_set_cb, q1, q2, if_false, if_true] at ha' ⊢
    rw [← Option.some.inj ha']
    rfl
  · obtain ⟨a', ha', heq⟩ := micropoll_set_new (m + 1) mp errno fd POLLOUT fn data d b hfd hnew hd
      hb hlow
    rw [heq]
    have hq : ({ fd_zero (m + 1) with set := 1, fd := fd } : struct_micropoll_fd).pollout ≠ [] := by
      simp [fd_zero, List.replicate_succ]
    have hr := set_cb_pollout_ret { fd_zero (m + 1) with set := 1, fd := fd } errno
      (micropoll_cb fn data) hq
    rw [hr.1, hr.2]
    by_cases hmem : micropoll_cb fn data ∈
        ({ fd_zero (m + 1) with set := 1, fd := fd } : struct_micropoll_fd).pollout
    · rw [(set_cb_pollout_cases _ errno _ hq).1 hmem] at ha'
      rw [← Option.some.inj ha']
      have hz : micropoll_cb fn data = cb_zero := by
        simp only [fd_zero] at hmem
        exact List.eq_of_mem_replicate hmem
      rw [hz]
      simp [fd_zero, List.replicate_succ]
    · rw [(set_cb_pollout_cases _ errno _ hq).2 hmem] at ha'
      rw [← Option.some.inj ha']
      simp [fd_zero, List.replicate_succ]

/-- Witness of C19: descriptor 3 of `mp_busy` has read, error and write
callbacks; an error dispatch clears only the active flag of slot 0, and
registering descriptor 3 again for read with `(5, 5)` leaves none of the old
callbacks in the slot. -/
theorem C19_slot_allocation_clean_reuse_witness :
    mp_after_error.fd[0]? =
        some { set := 0, fd := 3, pollin := ⟨7, 9⟩, pollerr := ⟨6, 9⟩,
               pollout := [⟨8, 9⟩, cb_zero, cb_zero, cb_zero] } ∧
      (∀ s ∈ mp_after_error.fd, s.set ≠ 0 → s.fd ≠ 3) ∧
      micropoll_set 4 mp_after_error 0 3 POLLIN 5 5 =
        { ret := 0, errno := 0,
          mp := { fd := mp_after_error.fd.set 0 { set := 1, fd := 3, pollin := ⟨5, 5⟩,
                                                  pollerr := cb_zero,
                                                  pollout := List.replicate 4 cb_zero } } } :=
  ⟨by decide, by decide,
   (C19_slot_allocation_clean_reuse 4 mp_after_error 0 3 5 5 0
      { set := 0, fd := 3, pollin := ⟨7, 9⟩, pollerr := ⟨6, 9⟩,
        pollout := [⟨8, 9⟩, cb_zero, cb_zero, cb_zero] }
      (by decide) (by decide) (by decide) (by decide) rfl
      (fun j _ hj => absurd hj (Nat.not_lt_zero j))).1⟩

theorem shift_loop_spec :
    ∀ (b : List struct_micropoll_cb) (fuel : Nat) (a : List struct_micropoll_cb)
      (x : struct_micropoll_cb), b.length ≤ fuel →
      ∃ y, pollout_shift_loop fuel (a.length + 1) (a ++ x :: b) = a ++ b ++ [y] := by
  intro b
  induction b with
  | nil =>
    intro fuel a x _
    cases fuel with
    | zero => exact ⟨x, by simp [pollout_shift_loop]⟩
    | succ f => exact ⟨x, by simp [pollout_shift_loop]⟩
  | cons b0 b' ih =>
    intro fuel a x hfuel
    cases fuel with
    | zero => simp at hfuel
    | succ f =>
      have hf : b'.length ≤ f := by simpa using hfuel
      obtain ⟨y, hy⟩ := ih f (a ++ [b0]) b0 hf
      refine ⟨y, ?_⟩
      have hlt : a.length + 1 < (a ++ x :: b0 :: b').length := by simp
      have hget : (a ++ x :: b0 :: b').getD (a.length + 1) cb_zero = b0 := by
        have h1 : (a ++ x :: b0 :: b')[a.length + 1]? = some b0 := by
          rw [List.getElem?_append_right (by omega)]
          simp
        simp [List.getD_eq_getElem?_getD, h1]
      have hset : (a ++ x :: b0 :: b').set (a.length + 1 - 1) b0 = (a ++ [b0]) ++ b0 :: b' := by
        simp [List.set_append_right]
      rw [pollout_shift_loop, if_pos hlt, hget, hset]
      have hlen : a.length + 1 + 1 = (a ++ [b0]).length + 1 := by simp
      rw [hlen, hy]
      simp

theorem pollout_shift_cons (x : struct_micropoll_cb) (b : List struct_micropoll_cb) :
    pollout_shift (x :: b) = b ++ [cb_zero] := by
  obtain ⟨y, hy⟩ := shift_loop_spec b (x :: b).length [] x (by simp)
  have hy' : pollout_shift_loop (x :: b).length 1 (x :: b) = b ++ [y] := by simpa using hy
  unfold pollout_shift
  rw [hy']
  simp [List.set_append_right]

theorem land_zero_left (x : Int) : Int.land 0 x = 0 := by
  cases x with
  | ofNat n => show ((0 &&& n : Nat) : Int) = 0; simp
  | negSucc n => show ((Nat.ldiff 0 n : Nat) : Int) = 0; simp [Nat.ldiff]

theorem entry_no_error (env : handler_env) (st0 : dispatch_state) (p : pollfd) (s : Nat)
    (m0 : struct_micropoll_fd) (hs : st0.mp.fd[s]? = some m0) (hset : m0.set ≠ 0)
    (hfd : m0.fd = p.fd) (hrev : p.revents ≠ 0)
    (hok : Int.land p.revents (Int.lor POLLERR POLLNVAL) = 0) :
    micropoll_dispatch_entry env st0 (p, s) =
      dispatch_pollout env (dispatch_pollin env st0 s p.revents) s p.revents := by
  simp [micropoll_dispatch_entry, hrev, hs, hset, hfd, hok]

theorem entry_error (env : handler_env) (st0 : dispatch_state) (p : pollfd) (s : Nat)
    (m0 : struct_micropoll_fd) (hs : st0.mp.fd[s]? = some m0) (hset : m0.set ≠ 0)
    (hfd : m0.fd = p.fd)
    (herr : Int.land p.revents (Int.lor POLLERR POLLNVAL) ≠ 0) :
    micropoll_dispatch_entry env st0 (p, s) = dispatch_pollerr env st0 s := by
  have hrev : p.revents ≠ 0 := by
    intro h
    rw [h, land_zero_left] at herr
    exact herr rfl
  simp [micropoll_dispatch_entry, hrev, hs, hset, hfd, herr]

theorem update_fd_some (mp : struct_micropoll) (s : Nat) (m : struct_micropoll_fd)
    (f : struct_micropoll_fd → struct_micropoll_fd) (h : mp.fd[s]? = some m) :
    update_fd mp s f = { fd := mp.fd.set s (f m) } := by
  simp [update_fd, h]

theorem dispatch_pollout_step (env : handler_env) (st : dispatch_state) (s : Nat) (rev : Int)
    (m : struct_micropoll_fd) (r : set_result) (hm : st.mp.fd[s]? = some m)
    (hfront : (pollout_front m.pollout).fn ≠ 0) (hbit : Int.land rev POLLOUT ≠ 0)
    (hr : env (pollout_front m.pollout).fn st.mp st.errno m.fd (pollout_front m.pollout).data = r) :
    (dispatch_pollout env st s rev).calls =
        st.calls ++ [{ kind := cb_kind.pollout, slot := s, fn := (pollout_front m.pollout).fn,
                       fd := m.fd, data := (pollout_front m.pollout).data }] ∧
    (dispatch_pollout env st s rev).errno = r.errno ∧
    (r.ret ≠ 0 → (dispatch_pollout env st s rev).mp = r.mp) ∧
    (r.ret = 0 → (dispatch_pollout env st s rev).mp =
      update_fd r.mp s (fun m' => { m' with pollout := pollout_shift m'.pollout })) := by
  subst hr
  by_cases h0 : (env (pollout_front m.pollout).fn st.mp st.errno m.fd
      (pollout_front m.pollout).data).ret = 0
  · simp [dispatch_pollout, hm, hfront, hbit, invoke, h0]
  · simp [dispatch_pollout, hm, hfront, hbit, invoke, h0]

theorem shift_gap_free (q : List struct_micropoll_cb) (h : queue_gap_free q) :
    queue_gap_free (pollout_shift q) := by
  cases q with
  | nil =>
    intro k j c c' hk
    simp [pollout_shift, pollout_shift_loop] at hk
  | cons x b =>
    rw [pollout_shift_cons]
    intro k j c c' hk hc hkj hj
    by_cases hjb : j < b.length
    · have hkb : k < b.length := by omega
      rw [List.getElem?_append_left hkb] at hk
      rw [List.getElem?_append_left hjb] at hj
      exact h (k + 1) (j + 1) c c' (by simpa using hk) hc (by omega) (by simpa using hj)
    · rw [List.getElem?_append_right (by omega)] at hj
      have hj0 : j - b.length = 0 := by
        by_contra hne
        have : ([cb_zero] : List struct_micropoll_cb)[j - b.length]? = none := by
          apply List.getElem?_eq_none
          simp; omega
        rw [this] at hj
        exact absurd hj (by simp)
      rw [hj0] at hj
      simp at hj
      rw [← hj]
      rfl

/-- C16. Write-queue compaction.  In a dispatch step without `POLLERR`/`POLLNVAL`
for a slot that is active with the polled descriptor, let `st` be the state after
the read dispatch, `m` the slot in `st` with a non-null front write handler, and
let `POLLOUT` be returned; the front handler is invoked and leaves the outcome
`r`.  If it returned 0, the reactor after the step is the reactor `r.mp` it left
with the write queue `q` of the slot replaced by `pollout_shift q`; if it returned
non-zero, the reactor after the step is `r.mp` itself.  For a queue `q` of
`M > 0` entries, `pollout_shift q` has `M` entries, entry `k - 1` is `q[k]` for
`1 <= k < M` (so entry 0 is the former second entry), and entry `M - 1` is the
all-zero callback; it is `q` without its first entry followed by one empty
entry, and a gap-free queue stays gap-free. -/
theorem C16_write_queue_compaction :
    (∀ (env : handler_env) (st0 st : dispatch_state) (p : pollfd) (s : Nat)
        (m0 m m' : struct_micropoll_fd) (r : set_result),
      st0.mp.fd[s]? = some m0 → m0.set ≠ 0 → m0.fd = p.fd → p.revents ≠ 0 →
      Int.land p.revents (Int.lor POLLERR POLLNVAL) = 0 →
      dispatch_pollin env st0 s p.revents = st → st.mp.fd[s]? = some m →
      (pollout_front m.pollout).fn ≠ 0 → Int.land p.revents POLLOUT ≠ 0 →
      env (pollout_front m.pollout).fn st.mp st.errno m.fd (pollout_front m.pollout).data = r →
      r.mp.fd[s]? = some m' →
      (r.ret = 0 → (micropoll_dispatch_entry env st0 (p, s)).mp =
        { fd := r.mp.fd.set s { m' with pollout := pollout_shift m'.pollout } }) ∧
      (r.ret ≠ 0 → (micropoll_dispatch_entry env st0 (p, s)).mp = r.mp)) ∧
    (∀ q : List struct_micropoll_cb, q ≠ [] →
      (pollout_shift q).length = q.length ∧
      (∀ k : Nat, 1 ≤ k → k < q.length → (pollout_shift q)[k - 1]? = q[k]?) ∧
      (pollout_shift q)[q.length - 1]? = some cb_zero ∧
      pollout_shift q = q.tail ++ [cb_zero]) ∧
    (∀ q : List struct_micropoll_cb, queue_gap_free q → queue_gap_free (pollout_shift q)) := by
  refine ⟨?_, ?_, shift_gap_free⟩
  · intro env st0 st p s m0 m m' r hs hset hfd hrev hok hst hm hfront hbit hr hm'
    rw [entry_no_error env st0 p s m0 hs hset hfd hrev hok, hst]
    obtain ⟨-, -, h1, h2⟩ := dispatch_pollout_step env st s p.revents m r hm hfront hbit hr
    refine ⟨fun h0 => ?_, h1⟩
    rw [h2 h0, update_fd_some r.mp s m' _ hm']
  · intro q hq
    obtain ⟨x, b, rfl⟩ := List.exists_cons_of_ne_nil hq
    rw [pollout_shift_cons]
    refine ⟨by simp, ?_, ?_, by simp⟩
    · intro k hk1 hk2
      obtain ⟨k', rfl⟩ : ∃ k', k = k' + 1 := ⟨k - 1, by omega⟩
      have hk' : k' < b.length := by simpa using hk2
      simp [List.getElem?_append_left hk']
    · simp [List.getElem?_append_right]

/-- Witness of C16: slot 0 holds descriptor 5 with the write queue
`[(1,1), (2,2), (3,3), (4,4)]`; `POLLOUT` is returned and the front handler
returns 0. -/
theorem C16_write_queue_compaction_witness :
    (micropoll_dispatch_entry (env_const 0) { mp := mp_full_queue, errno := 0, calls := [] }
        ({ fd := 5, events := POLLOUT, revents := POLLOUT }, 0)).mp =
      { fd := mp_full_queue.fd.set 0 { fd_full_queue with pollout := pollout_shift fd_full_queue.pollout } } ∧
    pollout_shift fd_full_queue.pollout = [⟨2, 2⟩, ⟨3, 3⟩, ⟨4, 4⟩, cb_zero] ∧
    fd_full_queue.pollout ≠ [] ∧
    (pollout_shift fd_full_queue.pollout)[0]? = fd_full_queue.pollout[1]? ∧
    queue_gap_free (pollout_shift [⟨1, 1⟩, cb_zero, cb_zero, cb_zero]) :=
  ⟨(C16_write_queue_compaction.1 (env_const 0) { mp := mp_full_queue, errno := 0, calls := [] }
      { mp := mp_full_queue, errno := 0, calls := [] }
      { fd := 5, events := POLLOUT, revents := POLLOUT } 0 fd_full_queue fd_full_queue
      fd_full_queue { ret := 0, errno := 0, mp := mp_full_queue }
      (by decide) (by decide) (by decide) (by decide) (by decide) (by decide) (by decide)
      (by decide) (by decide) (by decide) (by decide)).1 (by decide),
   by decide, by decide,
   (C16_write_queue_compaction.2.1 fd_full_queue.pollout (by decide)).2.1 1 (by decide)
     (by decide),
   C16_write_queue_compaction.2.2 [⟨1, 1⟩, cb_zero, cb_zero, cb_zero] (by
     intro k j c c' hk hc hkj hj
     have hj4 : j < 4 := by
       by_contra h
       have : ([⟨1, 1⟩, cb_zero, cb_zero, cb_zero] : List struct_micropoll_cb)[j]? = none :=
         List.getElem?_eq_none (by simp; omega)
       rw [this] at hj
       exact absurd hj (by simp)
     obtain ⟨j', rfl⟩ : ∃ j', j = j' + 1 := ⟨j - 1, by omega⟩
     have hmem := List.getElem?_mem (show ([cb_zero, cb_zero, cb_zero] :
       List struct_micropoll_cb)[j']? = some c' by simpa using hj)
     simp at hmem
     rw [hmem]
     rfl)⟩

theorem pollerr_calls (env : handler_env) (st : dispatch_state) (s : Nat)
    (m : struct_micropoll_fd) (hm : st.mp.fd[s]? = some m) :
    (dispatch_pollerr env st s).calls =
      st.calls ++ (if m.pollerr.fn ≠ 0 then
        [{ kind := cb_kind.pollerr, slot := s, fn := m.pollerr.fn, fd := m.fd,
           data := m.pollerr.data }] else []) := by
  by_cases h : m.pollerr.fn = 0
  · simp [dispatch_pollerr, hm, h]
  · simp [dispatch_pollerr, hm, h, invoke]

theorem pollin_calls (env : handler_env) (st : dispatch_state) (s : Nat) (rev : Int)
    (m : struct_micropoll_fd) (hm : st.mp.fd[s]? = some m) :
    (dispatch_pollin env st s rev).calls =
      st.calls ++ (if m.pollin.fn ≠ 0 ∧ Int.land rev POLLIN ≠ 0 then
        [{ kind := cb_kind.pollin, slot := s, fn := m.pollin.fn, fd := m.fd,
           data := m.pollin.data }] else []) := by
  by_cases h : m.pollin.fn ≠ 0 ∧ Int.land rev POLLIN ≠ 0
  · simp only [dispatch_pollin, hm, invoke]
    rw [if_pos h, if_pos h]
    split_ifs <;> rfl
  · simp only [dispatch_pollin, hm]
    rw [if_neg h, if_neg h, List.append_nil]

theorem pollout_calls (env : handler_env) (st : dispatch_state) (s : Nat) (rev : Int)
    (m : struct_micropoll_fd) (hm : st.mp.fd[s]? = some m) :
    (dispatch_pollout env st s rev).calls =
      st.calls ++ (if (pollout_front m.pollout).fn ≠ 0 ∧ Int.land rev POLLOUT ≠ 0 then
        [{ kind := cb_kind.pollout, slot := s, fn := (pollout_front m.pollout).fn, fd := m.fd,
           data := (pollout_front m.pollout).data }] else []) := by
  by_cases h : (pollout_front m.pollout).fn ≠ 0 ∧ Int.land rev POLLOUT ≠ 0
  · simp only [dispatch_pollout, hm, invoke]
    rw [if_pos h, if_pos h]
    split_ifs <;> rfl
  · simp only [dispatch_pollout, hm]
    rw [if_neg h, if_neg h, List.append_nil]

theorem pollout_calls_none (env : handler_env) (st : dispatch_state) (s : Nat) (rev : Int)
    (hm : st.mp.fd[s]? = none) : dispatch_pollout env st s rev = st := by
  simp [dispatch_pollout, hm]

theorem entry_calls_shape (env : handler_env) (st : dispatch_state) (e : pollfd × Nat) :
    ∃ D, (micropoll_dispatch_entry env st e).calls = st.calls ++ D ∧
      (∀ c ∈ D, c.slot = e.2) ∧
      D.map (fun c => c.kind) ∈
        [[], [cb_kind.pollerr], [cb_kind.pollin], [cb_kind.pollout],
         [cb_kind.pollin, cb_kind.pollout]] := by
  obtain ⟨p, s⟩ := e
  by_cases hrev : p.revents = 0
  · exact ⟨[], by simp [micropoll_dispatch_entry, hrev], by simp, by simp⟩
  cases hm : st.mp.fd[s]? with
  | none => exact ⟨[], by simp [micropoll_dispatch_entry, hrev, hm], by simp, by simp⟩
  | some m =>
    by_cases hstale : m.set = 0 ∨ m.fd ≠ p.fd
    · exact ⟨[], by simp [micropoll_dispatch_entry, hrev, hm, hstale], by simp, by simp⟩
    have hset : m.set ≠ 0 := fun h => hstale (Or.inl h)
    have hfd : m.fd = p.fd := by
      by_contra h
      exact hstale (Or.inr h)
    by_cases herr : Int.land p.revents (Int.lor POLLERR POLLNVAL) ≠ 0
    · rw [entry_error env st p s m hm hset hfd herr, pollerr_calls env st s m hm]
      refine ⟨_, rfl, ?_, ?_⟩
      · intro c hc
        split_ifs at hc
        · simp at hc; rw [hc]
        · simp at hc
      · split_ifs <;> simp
    · have hok : Int.land p.revents (Int.lor POLLERR POLLNVAL) = 0 := by
        by_contra h
        exact herr h
      rw [entry_no_error env st p s m hm hset hfd hrev hok]
      have h1 := pollin_calls env st s p.revents m hm
      cases hm1 : (dispatch_pollin env st s p.revents).mp.fd[s]? with
      | none =>
        rw [pollout_calls_none env _ s p.revents hm1, h1]
        refine ⟨_, rfl, ?_, ?_⟩
        · intro c hc
          split_ifs at hc
          · simp at hc; rw [hc]
          · simp at hc
        · split_ifs <;> simp
      | some m1 =>
        rw [pollout_calls env _ s p.revents m1 hm1, h1, List.append_assoc]
        refine ⟨_, rfl, ?_, ?_⟩
        · intro c hc
          rw [List.mem_append] at hc
          rcases hc with hc | hc
          · split_ifs at hc
            · simp at hc; rw [hc]
            · simp at hc
          · split_ifs at hc
            · simp at hc; rw [hc]
            · simp at hc
        · split_ifs <;> simp

theorem project_slots :
    ∀ (l : List struct_micropoll_fd) (i : Nat),
      ((micropoll_project l i).map Prod.snd).Pairwise (· < ·) ∧
      ∀ x ∈ (micropoll_project l i).map Prod.snd, i ≤ x := by
  intro l
  induction l with
  | nil => intro i; simp [micropoll_project]
  | cons a rest ih =>
    intro i
    obtain ⟨h1, h2⟩ := ih (i + 1)
    by_cases hskip : a.set = 0 ∨ a.fd < 0
    · simp only [micropoll_project, hskip, if_true]
      exact ⟨h1, fun x hx => by have := h2 x hx; omega⟩
    · simp only [micropoll_project, hskip, if_false, List.map_cons, List.pairwise_cons,
        List.mem_cons]
      refine ⟨⟨fun x hx => by have := h2 x hx; omega, h1⟩, ?_⟩
      intro x hx
      rcases hx with rfl | hx
      · exact Nat.le_refl _
      · have := h2 x hx; omega

theorem entries_slots :
    ∀ (proj : List (pollfd × Nat)) (revents : List Int),
      (micropoll_entries proj revents).map Prod.snd = proj.map Prod.snd := by
  intro proj
  induction proj with
  | nil => intro _; rfl
  | cons e rest ih =>
    intro revents
    obtain ⟨p, s⟩ := e
    simp [micropoll_entries, ih]

theorem dispatch_calls_shape (env : handler_env) :
    ∀ (es : List (pollfd × Nat)) (st : dispatch_state),
      (es.map Prod.snd).Pairwise (· < ·) →
      ∃ D, (micropoll_dispatch env st es).calls = st.calls ++ D ∧
        (∀ c ∈ D, c.slot ∈ es.map Prod.snd) ∧
        (D.map (fun c => c.slot)).Pairwise (· ≤ ·) ∧
        ∀ s : Nat, (D.filter (fun c => decide (c.slot = s))).map (fun c => c.kind) ∈
          [[], [cb_kind.pollerr], [cb_kind.pollin], [cb_kind.pollout],
           [cb_kind.pollin, cb_kind.pollout]] := by
  intro es
  induction es with
  | nil =>
    intro st _
    exact ⟨[], by simp [micropoll_dispatch], by simp, by simp, by simp⟩
  | cons e rest ih =>
    intro st hpw
    rw [List.map_cons, List.pairwise_cons] at hpw
    obtain ⟨D1, hD1, hslot1, hshape1⟩ := entry_calls_shape env st e
    obtain ⟨D2, hD2, hslot2, hsort2, hshape2⟩ := ih (micropoll_dispatch_entry env st e) hpw.2
    have hgt : ∀ c ∈ D2, e.2 < c.slot := fun c hc => hpw.1 _ (hslot2 c hc)
    refine ⟨D1 ++ D2, ?_, ?_, ?_, ?_⟩
    · show (micropoll_dispatch env (micropoll_dispatch_entry env st e) rest).calls = _
      rw [hD2, hD1, List.append_assoc]
    · intro c hc
      rw [List.mem_append] at hc
      rcases hc with hc | hc
      · rw [hslot1 c hc]; simp
      · exact List.mem_cons_of_mem _ (hslot2 c hc)
    · rw [List.map_append, List.pairwise_append]
      refine ⟨?_, hsort2, ?_⟩
      · rw [List.pairwise_map]
        exact List.pairwise_of_forall_mem_list (fun a ha b hb => by
          rw [hslot1 a ha, hslot1 b hb])
      · intro a ha b hb
        obtain ⟨ca, hca, rfl⟩ := List.mem_map.1 ha
        obtain ⟨cb, hcb, rfl⟩ := List.mem_map.1 hb
        rw [hslot1 ca hca]
        exact Nat.le_of_lt (hgt cb hcb)
    · intro s
      rw [List.filter_append]
      by_cases hs : s = e.2
      · have h1 : D1.filter (fun c => decide (c.slot = s)) = D1 :=
          List.filter_eq_self.2 (fun c hc => by simp [hslot1 c hc, hs])
        have h2 : D2.filter (fun c => decide (c.slot = s)) = [] :=
          List.filter_eq_nil_iff.2 (fun c hc => by
            have := hgt c hc
            simp; omega)
        rw [h1, h2, List.append_nil]
        exact hshape1
      · have h1 : D1.filter (fun c => decide (c.slot = s)) = [] :=
          List.filter_eq_nil_iff.2 (fun c hc => by
            simp [hslot1 c hc]; exact fun h => hs h.symm)
        rw [h1, List.nil_append]
        exact hshape2 s

theorem micropoll_pos (env : handler_env) (poll : poll_oracle) (mp : struct_micropoll)
    (errno timeout : Int) (hproj : micropoll_project mp.fd 0 ≠ [])
    (hret : 0 < (poll ((micropoll_project mp.fd 0).map Prod.fst) timeout errno).ret) :
    micropoll env poll mp errno timeout =
      { ret := 0,
        errno := (micropoll_dispatch env
          { mp := mp,
            errno := (poll ((micropoll_project mp.fd 0).map Prod.fst) timeout errno).errno,
            calls := [] }
          (micropoll_entries (micropoll_project mp.fd 0)
            (poll ((micropoll_project mp.fd 0).map Prod.fst) timeout errno).revents)).errno,
        mp := (micropoll_dispatch env
          { mp := mp,
            errno := (poll ((micropoll_project mp.fd 0).map Prod.fst) timeout errno).errno,
            calls := [] }
          (micropoll_entries (micropoll_project mp.fd 0)
            (poll ((micropoll_project mp.fd 0).map Prod.fst) timeout errno).revents)).mp,
        calls := (micropoll_dispatch env
          { mp := mp,
            errno := (poll ((micropoll_project mp.fd 0).map Prod.fst) timeout errno).errno,
            calls := [] }
          (micropoll_entries (micropoll_project mp.fd 0)
            (poll ((micropoll_project mp.fd 0).map Prod.fst) timeout errno).revents)).calls,
        polls := [((micropoll_project mp.fd 0).map Prod.fst, timeout)] } := by
  have hlen : ¬ (micropoll_project mp.fd 0).length = 0 := by
    intro h
    exact hproj (List.length_eq_zero.1 h)
  have hnot : ¬ (poll ((micropoll_project mp.fd 0).map Prod.fst) timeout errno).ret ≤ 0 := by
    omega
  simp only [micropoll, hlen, if_false, hnot]

theorem micropoll_nonpos (env : handler_env) (poll : poll_oracle) (mp : struct_micropoll)
    (errno timeout : Int) (hproj : micropoll_project mp.fd 0 ≠ [])
    (hret : (poll ((micropoll_project mp.fd 0).map Prod.fst) timeout errno).ret ≤ 0) :
    micropoll env poll mp errno timeout =
      { ret := (poll ((micropoll_project mp.fd 0).map Prod.fst) timeout errno).ret,
        errno := (poll ((micropoll_project mp.fd 0).map Prod.fst) timeout errno).errno,
        mp := mp, calls := [],
        polls := [((micropoll_project mp.fd 0).map Prod.fst, timeout)] } := by
  have hlen : ¬ (micropoll_project mp.fd 0).length = 0 := by
    intro h
    exact hproj (List.length_eq_zero.1 h)
  simp only [micropoll, hlen, if_false, hret, if_true]

theorem micropoll_calls_cases (env : handler_env) (poll : poll_oracle) (mp : struct_micropoll)
    (errno timeout : Int) :
    (micropoll env poll mp errno timeout).calls = [] ∨
    (micropoll env poll mp errno timeout).calls =
      (micropoll_dispatch env
        { mp := mp,
          errno := (poll ((micropoll_project mp.fd 0).map Prod.fst) timeout errno).errno,
          calls := [] }
        (micropoll_entries (micropoll_project mp.fd 0)
          (poll ((micropoll_project mp.fd 0).map Prod.fst) timeout errno).revents)).calls := by
  by_cases hproj : micropoll_project mp.fd 0 = []
  · left
    simp [micropoll, hproj]
  · by_cases hret : 0 < (poll ((micropoll_project mp.fd 0).map Prod.fst) timeout errno).ret
    · right
      rw [micropoll_pos env poll mp errno timeout hproj hret]
    · left
      rw [micropoll_nonpos env poll mp errno timeout hproj (by omega)]

/-- C17. Dispatch order and multiplicity.  In one `micropoll` cycle, whatever
`poll` reports and whatever the handlers do, the sequence of handler invocations
is ordered by ascending slot index, and the invocations of any one slot are, in
this order of callback fields, one of: none; the error callback alone; the read
callback alone; the write callback alone; the read callback followed by the write
callback.  A write invocation made by the write dispatch of a slot is that of
the front entry `pollout[0]` of the slot at that moment. -/
theorem C17_dispatch_order_and_multiplicity :
    (∀ (env : handler_env) (poll : poll_oracle) (mp : struct_micropoll) (errno timeout : Int),
      ((micropoll env poll mp errno timeout).calls.map (fun c => c.slot)).Pairwise (· ≤ ·) ∧
      ∀ s : Nat,
        ((micropoll env poll mp errno timeout).calls.filter
            (fun c => decide (c.slot = s))).map (fun c => c.kind) ∈
          [[], [cb_kind.pollerr], [cb_kind.pollin], [cb_kind.pollout],
           [cb_kind.pollin, cb_kind.pollout]]) ∧
    (∀ (env : handler_env) (st : dispatch_state) (s : Nat) (rev : Int)
        (m : struct_micropoll_fd), st.mp.fd[s]? = some m →
      (dispatch_pollout env st s rev).calls =
        st.calls ++ (if (pollout_front m.pollout).fn ≠ 0 ∧ Int.land rev POLLOUT ≠ 0 then
          [{ kind := cb_kind.pollout, slot := s, fn := (pollout_front m.pollout).fn,
             fd := m.fd, data := (pollout_front m.pollout).data }] else [])) := by
  refine ⟨?_, pollout_calls⟩
  intro env poll mp errno timeout
  rcases micropoll_calls_cases env poll mp errno timeout with h | h
  · rw [h]; simp
  · rw [h]
    have hpw : ((micropoll_entries (micropoll_project mp.fd 0)
        (poll ((micropoll_project mp.fd 0).map Prod.fst) timeout errno).revents).map
          Prod.snd).Pairwise (· < ·) := by
      rw [entries_slots]
      exact (project_slots mp.fd 0).1
    obtain ⟨D, hD, -, hsort, hshape⟩ := dispatch_calls_shape env _
      { mp := mp,
        errno := (poll ((micropoll_project mp.fd 0).map Prod.fst) timeout errno).errno,
        calls := [] } hpw
    rw [hD]
    simp only [List.nil_append]
    exact ⟨hsort, hshape⟩

/-- Witness of C17: descriptor 5 of `mp_full_queue` is writable; the write
dispatch invokes the front entry `(1, 1)` of its queue, and only that one. -/
theorem C17_dispatch_order_and_multiplicity_witness :
    mp_full_queue.fd[0]? = some fd_full_queue ∧
      (dispatch_pollout (env_const 1) { mp := mp_full_queue, errno := 0, calls := [] } 0
          POLLOUT).calls =
        [{ kind := cb_kind.pollout, slot := 0, fn := 1, fd := 5, data := 1 }] :=
  ⟨by decide,
   by
     rw [C17_dispatch_order_and_multiplicity.2 (env_const 1)
       { mp := mp_full_queue, errno := 0, calls := [] } 0 POLLOUT fd_full_queue (by decide)]
     decide⟩

theorem dispatch_append (env : handler_env) (st : dispatch_state) (a b : List (pollfd × Nat)) :
    micropoll_dispatch env st (a ++ b) = micropoll_dispatch env (micropoll_dispatch env st a) b := by
  simp [micropoll_dispatch, List.foldl_append]

theorem dispatch_cons (env : handler_env) (st : dispatch_state) (e : pollfd × Nat)
    (b : List (pollfd × Nat)) :
    micropoll_dispatch env st (e :: b) =
      micropoll_dispatch env (micropoll_dispatch_entry env st e) b := rfl

theorem dispatch_calls_slots (env : handler_env) :
    ∀ (es : List (pollfd × Nat)) (st : dispatch_state),
      ∃ D, (micropoll_dispatch env st es).calls = st.calls ++ D ∧
        ∀ c ∈ D, c.slot ∈ es.map Prod.snd := by
  intro es
  induction es with
  | nil => intro st; exact ⟨[], by simp [micropoll_dispatch], by simp⟩
  | cons e rest ih =>
    intro st
    obtain ⟨D1, hD1, hslot1, -⟩ := entry_calls_shape env st e
    obtain ⟨D2, hD2, hslot2⟩ := ih (micropoll_dispatch_entry env st e)
    refine ⟨D1 ++ D2, ?_, ?_⟩
    · rw [dispatch_cons, hD2, hD1, List.append_assoc]
    · intro c hc
      rw [List.mem_append] at hc
      rcases hc with hc | hc
      · rw [hslot1 c hc]; simp
      · exact List.mem_cons_of_mem _ (hslot2 c hc)

theorem cycle_slot_calls (env : handler_env) (st0 : dispatch_state)
    (pre post : List (pollfd × Nat)) (p : pollfd) (s : Nat) (Ds : List invocation)
    (hpw : ((pre ++ (p, s) :: post).map Prod.snd).Pairwise (· < ·))
    (hstep : (micropoll_dispatch_entry env (micropoll_dispatch env st0 pre) (p, s)).calls =
      (micropoll_dispatch env st0 pre).calls ++ Ds)
    (hDs : ∀ c ∈ Ds, c.slot = s) :
    (micropoll_dispatch env st0 (pre ++ (p, s) :: post)).calls.filter
        (fun c => decide (c.slot = s)) =
      st0.calls.filter (fun c => decide (c.slot = s)) ++ Ds := by
  rw [List.map_append, List.map_cons, List.pairwise_append, List.pairwise_cons] at hpw
  obtain ⟨-, ⟨hpost, -⟩, hcross⟩ := hpw
  obtain ⟨D1, hD1, hslot1⟩ := dispatch_calls_slots env pre st0
  obtain ⟨D2, hD2, hslot2⟩ := dispatch_calls_slots env post
    (micropoll_dispatch_entry env (micropoll_dispatch env st0 pre) (p, s))
  rw [dispatch_append, dispatch_cons, hD2, hstep, hD1]
  simp only [List.filter_append]
  have h1 : D1.filter (fun c => decide (c.slot = s)) = [] :=
    List.filter_eq_nil_iff.2 (fun c hc => by
      have := hcross _ (hslot1 c hc) s (by simp)
      simp; omega)
  have h2 : D2.filter (fun c => decide (c.slot = s)) = [] :=
    List.filter_eq_nil_iff.2 (fun c hc => by
      have := hpost _ (hslot2 c hc)
      simp; omega)
  have h3 : Ds.filter (fun c => decide (c.slot = s)) = Ds :=
    List.filter_eq_self.2 (fun c hc => by simp [hDs c hc])
  rw [h1, h2, h3]
  simp

theorem update_fd_preserves (Q : struct_micropoll_fd → Prop) (mp : struct_micropoll)
    (s s' : Nat) (f : struct_micropoll_fd → struct_micropoll_fd)
    (hf : ∀ m, Q m → Q (f m)) (h : ∃ b, mp.fd[s]? = some b ∧ Q b) :
    ∃ b, (update_fd mp s' f).fd[s]? = some b ∧ Q b := by
  obtain ⟨b, hb, hQ⟩ := h
  cases hm : mp.fd[s']? with
  | none => exact ⟨b, by simp [update_fd, hm, hb], hQ⟩
  | some m =>
    rw [update_fd_some mp s' m f hm]
    by_cases hss : s' = s
    · subst hss
      have hlen : s' < mp.fd.length := (List.getElem?_eq_some_iff.1 hm).1
      have hmb : m = b := Option.some.inj (hm.symm.trans hb)
      exact ⟨f m, by simp [hlen], hf m (hmb ▸ hQ)⟩
    · exact ⟨b, by simp only [List.getElem?_set_ne hss]; exact hb, hQ⟩

theorem entries_ne_nil (proj : List (pollfd × Nat)) (revents : List Int)
    (h : micropoll_entries proj revents ≠ []) : proj ≠ [] := by
  intro hp
  rw [hp] at h
  exact h rfl

theorem pollerr_inactive (env : handler_env) (st : dispatch_state) (s : Nat)
    (m : struct_micropoll_fd) (hlay : env_layout env) (hm : st.mp.fd[s]? = some m) :
    ∃ b, (dispatch_pollerr env st s).mp.fd[s]? = some b ∧ b.set = 0 := by
  have hlen : s < st.mp.fd.length := (List.getElem?_eq_some_iff.1 hm).1
  by_cases h : m.pollerr.fn = 0
  · simp only [dispatch_pollerr, hm, h, ne_eq, not_true_eq_false, if_false]
    rw [update_fd_some st.mp s m _ hm]
    exact ⟨{ m with set := 0 }, by simp [hlen], rfl⟩
  · simp only [dispatch_pollerr, hm, h, ne_eq, not_false_eq_true, if_true, invoke]
    have hlen' : s < (env m.pollerr.fn st.mp st.errno m.fd m.pollerr.data).mp.fd.length := by
      rw [hlay]; exact hlen
    obtain ⟨b', hb'⟩ : ∃ b', (env m.pollerr.fn st.mp st.errno m.fd m.pollerr.data).mp.fd[s]? =
        some b' := ⟨_, List.getElem?_eq_getElem hlen'⟩
    rw [update_fd_some _ s b' _ hb']
    exact ⟨{ b' with set := 0 }, by simp [hlen'], rfl⟩

/-- C14 (counterexample).  Slot 0 holds descriptor 3 with an error callback,
slot 1 holds descriptor 4 with the read handler 20, which registers descriptor
9.  `poll` returns 2 with `POLLERR` for descriptor 3 and `POLLIN` for
descriptor 4.  Slot 0 is reached active with its descriptor and its error
callback is invoked once; the read handler of slot 1, invoked later in the same
cycle, claims the freed slot 0 for descriptor 9, so slot 0 is active after the
cycle. -/
theorem C14_counterexample_slot_reused_in_cycle :
    micropoll_entries (micropoll_project mp_err_then_reader.fd 0) [POLLERR, POLLIN] =
        [({ fd := 3, events := 0, revents := POLLERR }, 0),
         ({ fd := 4, events := POLLIN, revents := POLLIN }, 1)] ∧
      mp_err_then_reader.fd[0]? = some { fd_zero 4 with set := 1, fd := 3, pollerr := ⟨10, 0⟩ } ∧
      Int.land POLLERR (Int.lor POLLERR POLLNVAL) ≠ 0 ∧
      (micropoll env_accept (poll_list 2 0 [POLLERR, POLLIN]) mp_err_then_reader 0 100).ret = 0 ∧
      (micropoll env_accept (poll_list 2 0 [POLLERR, POLLIN]) mp_err_then_reader 0 100).calls =
        [{ kind := cb_kind.pollerr, slot := 0, fn := 10, fd := 3, data := 0 },
         { kind := cb_kind.pollin, slot := 1, fn := 20, fd := 4, data := 0 }] ∧
      (micropoll env_accept (poll_list 2 0 [POLLERR, POLLIN]) mp_err_then_reader 0 100).mp.fd[0]? =
        some { fd_zero 4 with set := 1, fd := 9, pollin := ⟨20, 0⟩ } := by
  decide

theorem dispatch_pollin_skip (env : handler_env) (st : dispatch_state) (s : Nat) (rev : Int)
    (m : struct_micropoll_fd) (hm : st.mp.fd[s]? = some m) (hfn : m.pollin.fn = 0) :
    dispatch_pollin env st s rev = st := by
  simp [dispatch_pollin, hm, hfn]

theorem project_mem :
    ∀ (l : List struct_micropoll_fd) (i : Nat) (p : pollfd) (k : Nat),
      (p, k) ∈ micropoll_project l i ↔
        ∃ (j : Nat) (m : struct_micropoll_fd), k = i + j ∧ l[j]? = some m ∧
          (m.set ≠ 0 ∧ 0 ≤ m.fd) ∧
          p = { fd := m.fd, events := micropoll_events m, revents := 0 } := by
  intro l
  induction l with
  | nil => intro i p k; simp [micropoll_project]
  | cons a rest ih =>
    intro i p k
    have hshift : (∃ (j : Nat) (m : struct_micropoll_fd), k = i + 1 + j ∧ rest[j]? = some m ∧
          (m.set ≠ 0 ∧ 0 ≤ m.fd) ∧
          p = { fd := m.fd, events := micropoll_events m, revents := 0 }) ↔
        ∃ (j : Nat) (m : struct_micropoll_fd), k = i + (j + 1) ∧ (a :: rest)[j + 1]? = some m ∧
          (m.set ≠ 0 ∧ 0 ≤ m.fd) ∧
          p = { fd := m.fd, events := micropoll_events m, revents := 0 } := by
      constructor
      · rintro ⟨j, m, hk, hj, hm, hp⟩
        exact ⟨j, m, by omega, by simpa using hj, hm, hp⟩
      · rintro ⟨j, m, hk, hj, hm, hp⟩
        exact ⟨j, m, by omega, by simpa using hj, hm, hp⟩
    by_cases hskip : a.set = 0 ∨ a.fd < 0
    · simp only [micropoll_project, hskip, if_true]
      rw [ih (i + 1) p k, hshift]
      constructor
      · rintro ⟨j, m, h⟩
        exact ⟨j + 1, m, h⟩
      · rintro ⟨j, m, hk, hj, hm, hp⟩
        cases j with
        | zero =>
          simp at hj
          subst hj
          rcases hskip with h | h
          · exact absurd h hm.1
          · omega
        | succ j => exact ⟨j, m, hk, hj, hm, hp⟩
    · have hact : a.set ≠ 0 ∧ 0 ≤ a.fd := by
        constructor
        · exact fun h => hskip (Or.inl h)
        · by_contra h
          exact hskip (Or.inr (by omega))
      simp only [micropoll_project, hskip, if_false, List.mem_cons]
      rw [ih (i + 1) p k, hshift]
      constructor
      · rintro (h | ⟨j, m, h⟩)
        · injection h with h1 h2
          exact ⟨0, a, by omega, by simp, hact, h1⟩
        · exact ⟨j + 1, m, h⟩
      · rintro ⟨j, m, hk, hj, hm, hp⟩
        cases j with
        | zero =>
          simp at hj
          subst hj
          left
          rw [hp]
          congr 1
        | succ j => exact Or.inr ⟨j, m, hk, hj, hm, hp⟩

theorem project_ne_nil_iff (mp : struct_micropoll) :
    micropoll_project mp.fd 0 ≠ [] ↔ ∃ s ∈ mp.fd, s.set ≠ 0 ∧ 0 ≤ s.fd := by
  constructor
  · intro h
    obtain ⟨⟨p, k⟩, rest, hx⟩ := List.exists_cons_of_ne_nil h
    have hmem : (p, k) ∈ micropoll_project mp.fd 0 := by rw [hx]; simp
    obtain ⟨j, m, -, hj, hm, -⟩ := (project_mem mp.fd 0 p k).1 hmem
    exact ⟨m, List.getElem?_mem hj, hm⟩
  · rintro ⟨s, hs, hact⟩
    obtain ⟨j, hj⟩ := List.mem_iff_getElem?.1 hs
    have hmem := (project_mem mp.fd 0 { fd := s.fd, events := micropoll_events s, revents := 0 }
      j).2 ⟨j, s, by omega, hj, hact, rfl⟩
    exact List.ne_nil_of_mem hmem

/-- C12 (counterexample).  Descriptor 3 is registered with an error callback
only (no read callback, empty write queue).  `micropoll` passes an entry for it to
`poll`, with `events = 0`; `poll` reports `POLLERR`; `micropoll` returns 0, not -2,
and the error callback is invoked. -/
theorem C12_counterexample_error_only_polled :
    mp_err_only.fd[0]? =
        some { set := 1, fd := 3, pollin := cb_zero, pollerr := ⟨6, 9⟩,
               pollout := [cb_zero, cb_zero, cb_zero, cb_zero] } ∧
      micropoll (env_const 1) (poll_const 1 POLLERR) mp_err_only 0 100 =
        { ret := 0, errno := 0,
          mp := { fd := mp_err_only.fd.set 0 { set := 0, fd := 3, pollin := cb_zero,
                                               pollerr := ⟨6, 9⟩,
                                               pollout := [cb_zero, cb_zero, cb_zero, cb_zero] } },
          calls := [{ kind := cb_kind.pollerr, slot := 0, fn := 6, fd := 3, data := 9 }],
          polls := [([{ fd := 3, events := 0, revents := 0 }], 100)] } := by
  decide

/-- C12 (amended).  The wait set is the set of active slots.
(1) A slot contributes an entry to the array passed to `poll` exactly when it is
active with a descriptor `>= 0`, whatever its callbacks; the entry carries the
descriptor of the slot and `events = 0` when the slot has neither a read callback
nor a front-of-queue write callback.  The entries are in table order, one per
slot.
(2) `micropoll` returns -2 without calling `poll` when no slot is active with a
descriptor `>= 0`; when there is such a slot, `poll` is called exactly once.
(3) In a cycle where `poll` returns `> 0`, a slot with an error callback that is
reached active with its descriptor and with `POLLERR` or `POLLNVAL` in its
returned events gets exactly one invocation, that of its error callback, also
when it is registered for errors only. -/
theorem C12_wait_set_is_active_slots :
    (∀ (mp : struct_micropoll) (k : Nat) (m : struct_micropoll_fd), mp.fd[k]? = some m →
      ((∃ p, (p, k) ∈ micropoll_project mp.fd 0) ↔ (m.set ≠ 0 ∧ 0 ≤ m.fd)) ∧
      (∀ p, (p, k) ∈ micropoll_project mp.fd 0 →
        p.fd = m.fd ∧ p.revents = 0 ∧
        (m.pollin.fn = 0 → (pollout_front m.pollout).fn = 0 → p.events = 0)) ∧
      ((micropoll_project mp.fd 0).map Prod.snd).Pairwise (· < ·)) ∧
    (∀ (env : handler_env) (poll : poll_oracle) (mp : struct_micropoll) (errno timeout : Int),
      ((∀ s ∈ mp.fd, s.set = 0 ∨ s.fd < 0) →
        micropoll env poll mp errno timeout =
          { ret := -2, errno := errno, mp := mp, calls := [], polls := [] }) ∧
      ((∃ s ∈ mp.fd, s.set ≠ 0 ∧ 0 ≤ s.fd) →
        (micropoll env poll mp errno timeout).polls =
          [((micropoll_project mp.fd 0).map Prod.fst, timeout)])) ∧
    (∀ (env : handler_env) (poll : poll_oracle) (mp : struct_micropoll) (errno timeout : Int)
        (pr : poll_result) (pre post : List (pollfd × Nat)) (p : pollfd) (s : Nat)
        (m : struct_micropoll_fd),
      poll ((micropoll_project mp.fd 0).map Prod.fst) timeout errno = pr → 0 < pr.ret →
      micropoll_entries (micropoll_project mp.fd 0) pr.revents = pre ++ (p, s) :: post →
      (micropoll_dispatch env { mp := mp, errno := pr.errno, calls := [] } pre).mp.fd[s]? =
        some m →
      m.set ≠ 0 → m.fd = p.fd → m.pollerr.fn ≠ 0 →
      Int.land p.revents (Int.lor POLLERR POLLNVAL) ≠ 0 →
      (micropoll env poll mp errno timeout).calls.filter (fun c => decide (c.slot = s)) =
        [{ kind := cb_kind.pollerr, slot := s, fn := m.pollerr.fn, fd := m.fd,
           data := m.pollerr.data }]) := by
  refine ⟨?_, ?_, ?_⟩
  · intro mp k m hk
    refine ⟨⟨?_, ?_⟩, ?_, (project_slots mp.fd 0).1⟩
    · rintro ⟨p, hp⟩
      obtain ⟨j, m', hkj, hj, hm', -⟩ := (project_mem mp.fd 0 p k).1 hp
      have : j = k := by omega
      subst this
      rw [hk] at hj
      injection hj with hj
      subst hj
      exact hm'
    · intro hact
      exact ⟨_, (project_mem mp.fd 0 _ k).2 ⟨k, m, by omega, hk, hact, rfl⟩⟩
    · intro p hp
      obtain ⟨j, m', hkj, hj, -, hpe⟩ := (project_mem mp.fd 0 p k).1 hp
      have : j = k := by omega
      subst this
      rw [hk] at hj
      injection hj with hj
      subst hj
      rw [hpe]
      refine ⟨rfl, rfl, ?_⟩
      intro h1 h2
      simp [micropoll_events, h1, h2]
  · intro env poll mp errno timeout
    constructor
    · intro hnone
      have hp : micropoll_project mp.fd 0 = [] := by
        by_contra h
        obtain ⟨s, hs, h1, h2⟩ := (project_ne_nil_iff mp).1 h
        rcases hnone s hs with h | h
        · exact h1 h
        · omega
      simp [micropoll, hp]
    · intro hsome
      have hproj := (project_ne_nil_iff mp).2 hsome
      by_cases hret : 0 < (poll ((micropoll_project mp.fd 0).map Prod.fst) timeout errno).ret
      · rw [micropoll_pos env poll mp errno timeout hproj hret]
      · rw [micropoll_nonpos env poll mp errno timeout hproj (by omega)]
  · intro env poll mp errno timeout pr pre post p s m hpr hret hsplit hreach hset hfd hfn herr
    have hproj : micropoll_project mp.fd 0 ≠ [] :=
      entries_ne_nil _ pr.revents (by rw [hsplit]; simp)
    have hmp := micropoll_pos env poll mp errno timeout hproj (by rw [hpr]; exact hret)
    rw [hpr, hsplit] at hmp
    have hpw : ((pre ++ (p, s) :: post).map Prod.snd).Pairwise (· < ·) := by
      rw [← hsplit, entries_slots]
      exact (project_slots mp.fd 0).1
    have hstep := entry_error env _ p s m hreach hset hfd herr
    rw [hmp]
    simp only
    rw [cycle_slot_calls env _ pre post p s
      [{ kind := cb_kind.pollerr, slot := s, fn := m.pollerr.fn, fd := m.fd,
         data := m.pollerr.data }] hpw
      (by rw [hstep, pollerr_calls env _ s m hreach, if_pos hfn])
      (by intro c hc; simp at hc; rw [hc])]
    simp

/-- Witness of C12 (amended): the error-only descriptor 3 of `mp_err_only`. -/
theorem C12_wait_set_is_active_slots_witness :
    (mp_err_only.fd[0]? =
        some { set := 1, fd := 3, pollin := cb_zero, pollerr := ⟨6, 9⟩,
               pollout := [cb_zero, cb_zero, cb_zero, cb_zero] } ∧
      ∃ p, (p, 0) ∈ micropoll_project mp_err_only.fd 0) ∧
    ((∃ s ∈ mp_err_only.fd, s.set ≠ 0 ∧ 0 ≤ s.fd) ∧
      (micropoll (env_const 1) (poll_const 1 POLLERR) mp_err_only 0 100).polls =
        [((micropoll_project mp_err_only.fd 0).map Prod.fst, 100)]) ∧
    (micropoll (env_const 1) (poll_const 1 POLLNVAL) mp_err_only 0 100).calls.filter
        (fun c => decide (c.slot = 0)) =
      [{ kind := cb_kind.pollerr, slot := 0, fn := 6, fd := 3, data := 9 }] :=
  ⟨⟨by decide,
     ((C12_wait_set_is_active_slots.1 mp_err_only 0
        { set := 1, fd := 3, pollin := cb_zero, pollerr := ⟨6, 9⟩,
          pollout := [cb_zero, cb_zero, cb_zero, cb_zero] } (by decide)).1).2
        ⟨by decide, by decide⟩⟩,
   ⟨by decide,
     (C12_wait_set_is_active_slots.2.1 (env_const 1) (poll_const 1 POLLERR) mp_err_only 0
        100).2 (by decide)⟩,
   C12_wait_set_is_active_slots.2.2 (env_const 1) (poll_const 1 POLLNVAL) mp_err_only 0 100
     { ret := 1, errno := 0, revents := [POLLNVAL] } [] []
     { fd := 3, events := 0, revents := POLLNVAL } 0
     { set := 1, fd := 3, pollin := cb_zero, pollerr := ⟨6, 9⟩,
       pollout := [cb_zero, cb_zero, cb_zero, cb_zero] }
     (by decide) (by decide) (by decide) (by decide) (by decide) (by decide) (by decide)
     (by decide)⟩

theorem micropoll_set_length (M : Nat) (mp : struct_micropoll) (errno fd event : Int)
    (fn data : Nat) :
    (micropoll_set M mp errno fd event fn data).mp.fd.length = mp.fd.length := by
  by_cases hfd : fd < 0
  · simp [micropoll_set, hfd]
  · rcases micropoll_set_cases M mp errno fd event fn data (by omega) with
      ⟨i, a, a', -, -, -, -, -, heq⟩ | ⟨-, heq⟩ | ⟨d, b, a', -, -, -, -, -, heq⟩
    · rw [heq]; simp
    · rw [heq]
    · rw [heq]; simp

theorem entry_sites_calls (env : handler_env) (st : dispatch_state) (e : pollfd × Nat) :
    (micropoll_dispatch_entry env st e).calls =
      st.calls ++ (entry_sites env st e).map (fun c => c.inv) := by
  obtain ⟨p, s⟩ := e
  by_cases hrev : p.revents = 0
  · simp [micropoll_dispatch_entry, entry_sites, hrev]
  cases hm : st.mp.fd[s]? with
  | none => simp [micropoll_dispatch_entry, entry_sites, hrev, hm]
  | some m =>
    by_cases hstale : m.set = 0 ∨ m.fd ≠ p.fd
    · simp [micropoll_dispatch_entry, entry_sites, hrev, hm, hstale]
    have hset : m.set ≠ 0 := fun h => hstale (Or.inl h)
    have hfd : m.fd = p.fd := by
      by_contra h
      exact hstale (Or.inr h)
    by_cases herr : Int.land p.revents (Int.lor POLLERR POLLNVAL) ≠ 0
    · rw [entry_error env st p s m hm hset hfd herr, pollerr_calls env st s m hm]
      simp only [entry_sites, hrev, hm, hstale, herr, if_false, if_true, pollerr_sites,
        ne_eq, not_false_eq_true]
      split_ifs <;> simp
    · have hok : Int.land p.revents (Int.lor POLLERR POLLNVAL) = 0 := by
        by_contra h
        exact herr h
      rw [entry_no_error env st p s m hm hset hfd hrev hok]
      have hsites : entry_sites env st (p, s) =
          pollin_sites st s p.revents ++
            pollout_sites (dispatch_pollin env st s p.revents) s p.revents := by
        simp [entry_sites, hrev, hm, hstale, hok]
      rw [hsites, List.map_append, ← List.append_assoc]
      have h1 : (dispatch_pollin env st s p.revents).calls =
          st.calls ++ (pollin_sites st s p.revents).map (fun c => c.inv) := by
        rw [pollin_calls env st s p.revents m hm]
        simp only [pollin_sites, hm]
        split_ifs <;> simp
      cases hm1 : (dispatch_pollin env st s p.revents).mp.fd[s]? with
      | none =>
        rw [pollout_calls_none env _ s p.revents hm1, h1]
        simp [pollout_sites, hm1]
      | some m1 =>
        rw [pollout_calls env _ s p.revents m1 hm1, h1]
        simp only [pollout_sites, hm1]
        split_ifs <;> simp

theorem dispatch_sites_calls (env : handler_env) :
    ∀ (es : List (pollfd × Nat)) (st : dispatch_state),
      (micropoll_dispatch env st es).calls =
        st.calls ++ (dispatch_sites env st es).map (fun c => c.inv) := by
  intro es
  induction es with
  | nil => intro st; simp [micropoll_dispatch, dispatch_sites]
  | cons e rest ih =>
    intro st
    rw [dispatch_cons, ih, entry_sites_calls]
    simp [dispatch_sites]

theorem invoke_preserves (env : handler_env) (Q : struct_micropoll_fd → Prop) (s : Nat)
    (st : dispatch_state) (k : cb_kind) (t : Nat) (cb : struct_micropoll_cb) (fd : Int)
    (hsite : (∃ b, st.mp.fd[s]? = some b ∧ Q b) →
      ∃ b', (call_outcome env
        { inv := { kind := k, slot := t, fn := cb.fn, fd := fd, data := cb.data },
          mp := st.mp, errno := st.errno }).mp.fd[s]? = some b' ∧ Q b')
    (h : ∃ b, st.mp.fd[s]? = some b ∧ Q b) :
    ∃ b, (invoke env st k t cb fd).2.mp.fd[s]? = some b ∧ Q b :=
  hsite h

theorem pollerr_preserves_sites (env : handler_env) (Q : struct_micropoll_fd → Prop) (s : Nat)
    (hQ1 : ∀ m, Q m → Q { m with set := 0 }) (st : dispatch_state) (t : Nat)
    (hsites : ∀ c ∈ pollerr_sites st t, (∃ b, c.mp.fd[s]? = some b ∧ Q b) →
      ∃ b', (call_outcome env c).mp.fd[s]? = some b' ∧ Q b')
    (h : ∃ b, st.mp.fd[s]? = some b ∧ Q b) :
    ∃ b, (dispatch_pollerr env st t).mp.fd[s]? = some b ∧ Q b := by
  cases hm : st.mp.fd[t]? with
  | none => simpa [dispatch_pollerr, hm] using h
  | some mfd =>
    by_cases hfn : mfd.pollerr.fn ≠ 0
    · simp only [dispatch_pollerr, hm, if_pos hfn]
      refine update_fd_preserves Q _ s t _ hQ1
        (invoke_preserves env Q s st cb_kind.pollerr t mfd.pollerr mfd.fd
          (hsites { inv := { kind := cb_kind.pollerr, slot := t, fn := mfd.pollerr.fn,
                             fd := mfd.fd, data := mfd.pollerr.data },
                    mp := st.mp, errno := st.errno } (by simp [pollerr_sites, hm, hfn])) h)
    · simp only [dispatch_pollerr, hm, if_neg hfn]
      exact update_fd_preserves Q _ s t _ hQ1 h

theorem pollin_preserves_sites (env : handler_env) (Q : struct_micropoll_fd → Prop) (s : Nat)
    (hQ2 : ∀ m, Q m → Q { m with pollin := cb_zero }) (st : dispatch_state) (t : Nat)
    (rev : Int)
    (hsites : ∀ c ∈ pollin_sites st t rev, (∃ b, c.mp.fd[s]? = some b ∧ Q b) →
      ∃ b', (call_outcome env c).mp.fd[s]? = some b' ∧ Q b')
    (h : ∃ b, st.mp.fd[s]? = some b ∧ Q b) :
    ∃ b, (dispatch_pollin env st t rev).mp.fd[s]? = some b ∧ Q b := by
  cases hm : st.mp.fd[t]? with
  | none => simpa [dispatch_pollin, hm] using h
  | some mfd =>
    by_cases hc : mfd.pollin.fn ≠ 0 ∧ Int.land rev POLLIN ≠ 0
    · have hinv := invoke_preserves env Q s st cb_kind.pollin t mfd.pollin mfd.fd
        (hsites { inv := { kind := cb_kind.pollin, slot := t, fn := mfd.pollin.fn,
                           fd := mfd.fd, data := mfd.pollin.data },
                  mp := st.mp, errno := st.errno } (by simp [pollin_sites, hm, hc])) h
      simp only [dispatch_pollin, hm]
      rw [if_pos hc]
      split_ifs
      · exact update_fd_preserves Q _ s t _ hQ2 hinv
      · exact hinv
    · simp only [dispatch_pollin, hm]
      rw [if_neg hc]
      exact h

theorem pollout_preserves_sites (env : handler_env) (Q : struct_micropoll_fd → Prop) (s : Nat)
    (hQ3 : ∀ m, Q m → Q { m with pollout := pollout_shift m.pollout }) (st : dispatch_state)
    (t : Nat) (rev : Int)
    (hsites : ∀ c ∈ pollout_sites st t rev, (∃ b, c.mp.fd[s]? = some b ∧ Q b) →
      ∃ b', (call_outcome env c).mp.fd[s]? = some b' ∧ Q b')
    (h : ∃ b, st.mp.fd[s]? = some b ∧ Q b) :
    ∃ b, (dispatch_pollout env st t rev).mp.fd[s]? = some b ∧ Q b := by
  cases hm : st.mp.fd[t]? with
  | none => simpa [dispatch_pollout, hm] using h
  | some mfd =>
    by_cases hc : (pollout_front mfd.pollout).fn ≠ 0 ∧ Int.land rev POLLOUT ≠ 0
    · have hinv := invoke_preserves env Q s st cb_kind.pollout t (pollout_front mfd.pollout)
        mfd.fd
        (hsites { inv := { kind := cb_kind.pollout, slot := t,
                           fn := (pollout_front mfd.pollout).fn, fd := mfd.fd,
                           data := (pollout_front mfd.pollout).data },
                  mp := st.mp, errno := st.errno } (by simp [pollout_sites, hm, hc])) h
      simp only [dispatch_pollout, hm]
      rw [if_pos hc]
      split_ifs
      · exact update_fd_preserves Q _ s t _ hQ3 hinv
      · exact hinv
    · simp only [dispatch_pollout, hm]
      rw [if_neg hc]
      exact h

theorem entry_preserves_sites (env : handler_env) (Q : struct_micropoll_fd → Prop) (s : Nat)
    (hQ1 : ∀ m, Q m → Q { m with set := 0 })
    (hQ2 : ∀ m, Q m → Q { m with pollin := cb_zero })
    (hQ3 : ∀ m, Q m → Q { m with pollout := pollout_shift m.pollout })
    (st : dispatch_state) (e : pollfd × Nat)
    (hsites : ∀ c ∈ entry_sites env st e, (∃ b, c.mp.fd[s]? = some b ∧ Q b) →
      ∃ b', (call_outcome env c).mp.fd[s]? = some b' ∧ Q b')
    (h : ∃ b, st.mp.fd[s]? = some b ∧ Q b) :
    ∃ b, (micropoll_dispatch_entry env st e).mp.fd[s]? = some b ∧ Q b := by
  obtain ⟨p, t⟩ := e
  by_cases hrev : p.revents = 0
  · simpa [micropoll_dispatch_entry, hrev] using h
  cases hm : st.mp.fd[t]? with
  | none => simpa [micropoll_dispatch_entry, hrev, hm] using h
  | some m =>
    by_cases hstale : m.set = 0 ∨ m.fd ≠ p.fd
    · simpa [micropoll_dispatch_entry, hrev, hm, hstale] using h
    have hset : m.set ≠ 0 := fun h => hstale (Or.inl h)
    have hfd : m.fd = p.fd := by
      by_contra h
      exact hstale (Or.inr h)
    by_cases herr : Int.land p.revents (Int.lor POLLERR POLLNVAL) ≠ 0
    · rw [entry_error env st p t m hm hset hfd herr]
      have hs : entry_sites env st (p, t) = pollerr_sites st t := by
        simp [entry_sites, hrev, hm, hstale, herr]
      rw [hs] at hsites
      exact pollerr_preserves_sites env Q s hQ1 st t hsites h
    · have hok : Int.land p.revents (Int.lor POLLERR POLLNVAL) = 0 := by
        by_contra h
        exact herr h
      rw [entry_no_error env st p t m hm hset hfd hrev hok]
      have hs : entry_sites env st (p, t) =
          pollin_sites st t p.revents ++
            pollout_sites (dispatch_pollin env st t p.revents) t p.revents := by
        simp [entry_sites, hrev, hm, hstale, hok]
      rw [hs] at hsites
      exact pollout_preserves_sites env Q s hQ3 _ t p.revents
        (fun c hc => hsites c (List.mem_append_right _ hc))
        (pollin_preserves_sites env Q s hQ2 st t p.revents
          (fun c hc => hsites c (List.mem_append_left _ hc)) h)

theorem dispatch_preserves_sites (env : handler_env) (Q : struct_micropoll_fd → Prop) (s : Nat)
    (hQ1 : ∀ m, Q m → Q { m with set := 0 })
    (hQ2 : ∀ m, Q m → Q { m with pollin := cb_zero })
    (hQ3 : ∀ m, Q m → Q { m with pollout := pollout_shift m.pollout }) :
    ∀ (es : List (pollfd × Nat)) (st : dispatch_state),
      (∀ c ∈ dispatch_sites env st es, (∃ b, c.mp.fd[s]? = some b ∧ Q b) →
        ∃ b', (call_outcome env c).mp.fd[s]? = some b' ∧ Q b') →
      (∃ b, st.mp.fd[s]? = some b ∧ Q b) →
      ∃ b, (micropoll_dispatch env st es).mp.fd[s]? = some b ∧ Q b := by
  intro es
  induction es with
  | nil => intro st _ h; exact h
  | cons e rest ih =>
    intro st hsites h
    rw [dispatch_cons]
    refine ih _ (fun c hc => hsites c ?_) (entry_preserves_sites env Q s hQ1 hQ2 hQ3 st e
      (fun c hc => hsites c ?_) h)
    · simp only [dispatch_sites]; exact List.mem_append_right _ hc
    · simp only [dispatch_sites]; exact List.mem_append_left _ hc

theorem layout_keeps (env : handler_env) (hlay : env_layout env) (Q : struct_micropoll_fd → Prop)
    (s : Nat) (c : handler_call)
    (hno : ¬ ∃ b b', c.mp.fd[s]? = some b ∧ Q b ∧
      (call_outcome env c).mp.fd[s]? = some b' ∧ ¬ Q b')
    (h : ∃ b, c.mp.fd[s]? = some b ∧ Q b) :
    ∃ b', (call_outcome env c).mp.fd[s]? = some b' ∧ Q b' := by
  obtain ⟨b, hb, hQ⟩ := h
  have hlen : s < c.mp.fd.length := (List.getElem?_eq_some_iff.1 hb).1
  have hlen' : s < (call_outcome env c).mp.fd.length := by
    unfold call_outcome
    rw [hlay]; exact hlen
  refine ⟨_, List.getElem?_eq_getElem hlen', ?_⟩
  by_contra hQ'
  exact hno ⟨b, _, hb, hQ, List.getElem?_eq_getElem hlen', hQ'⟩

theorem invoke_call_outcome (env : handler_env) (st : dispatch_state) (k : cb_kind) (s : Nat)
    (cb : struct_micropoll_cb) (fd : Int) :
    invoke env st k s cb fd =
      ((call_outcome env
          { inv := { kind := k, slot := s, fn := cb.fn, fd := fd, data := cb.data },
            mp := st.mp, errno := st.errno }).ret,
       { mp := (call_outcome env
          { inv := { kind := k, slot := s, fn := cb.fn, fd := fd, data := cb.data },
            mp := st.mp, errno := st.errno }).mp,
         errno := (call_outcome env
          { inv := { kind := k, slot := s, fn := cb.fn, fd := fd, data := cb.data },
            mp := st.mp, errno := st.errno }).errno,
         calls := st.calls ++
          [{ kind := k, slot := s, fn := cb.fn, fd := fd, data := cb.data }] }) :=
  rfl

theorem env_accept_layout : env_layout env_accept := by
  intro fn mp errno fd data
  unfold env_accept
  split_ifs
  · exact micropoll_set_length 4 mp errno 9 POLLIN 20 0
  · rfl

theorem dispatch_pollerr_sites (env : handler_env) (st : dispatch_state) (s : Nat) :
    dispatch_pollerr env st s =
      match pollerr_sites st s with
      | [] => { st with mp := update_fd st.mp s (fun m => { m with set := 0 }) }
      | c :: _ =>
        { mp := update_fd (call_outcome env c).mp s (fun m => { m with set := 0 }),
          errno := (call_outcome env c).errno, calls := st.calls ++ [c.inv] } := by
  cases hm : st.mp.fd[s]? with
  | none => simp [dispatch_pollerr, pollerr_sites, update_fd, hm]
  | some mfd =>
    by_cases hfn : mfd.pollerr.fn = 0
    · simp [dispatch_pollerr, pollerr_sites, hm, hfn]
    · simp [dispatch_pollerr, pollerr_sites, hm, hfn, invoke, call_outcome]

theorem dispatch_pollin_sites (env : handler_env) (st : dispatch_state) (s : Nat) (rev : Int) :
    dispatch_pollin env st s rev =
      match pollin_sites st s rev with
      | [] => st
      | c :: _ =>
        if (call_outcome env c).ret = 0 then
          { mp := update_fd (call_outcome env c).mp s (fun m => { m with pollin := cb_zero }),
            errno := (call_outcome env c).errno, calls := st.calls ++ [c.inv] }
        else
          { mp := (call_outcome env c).mp, errno := (call_outcome env c).errno,
            calls := st.calls ++ [c.inv] } := by
  cases hm : st.mp.fd[s]? with
  | none => simp [dispatch_pollin, pollin_sites, hm]
  | some mfd =>
    by_cases hc : mfd.pollin.fn ≠ 0 ∧ Int.land rev POLLIN ≠ 0
    · simp only [dispatch_pollin, pollin_sites, hm]
      rw [if_pos hc, if_pos hc]
      simp only [invoke, call_outcome]
    · simp only [dispatch_pollin, pollin_sites, hm]
      rw [if_neg hc, if_neg hc]

theorem dispatch_pollout_sites (env : handler_env) (st : dispatch_state) (s : Nat) (rev : Int) :
    dispatch_pollout env st s rev =
      match pollout_sites st s rev with
      | [] => st
      | c :: _ =>
        if (call_outcome env c).ret = 0 then
          { mp := update_fd (call_outcome env c).mp s
              (fun m => { m with pollout := pollout_shift m.pollout }),
            errno := (call_outcome env c).errno, calls := st.calls ++ [c.inv] }
        else
          { mp := (call_outcome env c).mp, errno := (call_outcome env c).errno,
            calls := st.calls ++ [c.inv] } := by
  cases hm : st.mp.fd[s]? with
  | none => simp [dispatch_pollout, pollout_sites, hm]
  | some mfd =>
    by_cases hc : (pollout_front mfd.pollout).fn ≠ 0 ∧ Int.land rev POLLOUT ≠ 0
    · simp only [dispatch_pollout, pollout_sites, hm]
      rw [if_pos hc, if_pos hc]
      simp only [invoke, call_outcome]
    · simp only [dispatch_pollout, pollout_sites, hm]
      rw [if_neg hc, if_neg hc]

/-- C14 (amended).  Error precedence.  In a cycle where `poll` returns `> 0`, let
the entry `(p, s)` of the projected array be reached with slot `s` still active
and holding the polled descriptor, and let its returned events contain `POLLERR`
or `POLLNVAL`.  Then the invocations of the cycle that belong to slot `s` are
exactly: the error callback of the slot, once, with the descriptor and context
of the slot, if its handler is non-null, and nothing otherwise (no read or write
callback of the slot is invoked).  When the dispatch step of the entry ends,
slot `s` is inactive, whatever the error handler returned or registered.  The
handler calls made in the rest of the cycle are those of
`dispatch_sites` on the remaining entries, and slot `s` is inactive after the
cycle if none of these calls activates it. -/
theorem C14_error_precedence (env : handler_env) (poll : poll_oracle) (mp : struct_micropoll)
    (errno timeout : Int) (pr : poll_result) (pre post : List (pollfd × Nat)) (p : pollfd)
    (s : Nat) (m : struct_micropoll_fd) (hlay : env_layout env)
    (hpr : poll ((micropoll_project mp.fd 0).map Prod.fst) timeout errno = pr)
    (hret : 0 < pr.ret)
    (hsplit : micropoll_entries (micropoll_project mp.fd 0) pr.revents = pre ++ (p, s) :: post)
    (hreach : (micropoll_dispatch env { mp := mp, errno := pr.errno, calls := [] } pre).mp.fd[s]? =
      some m)
    (hset : m.set ≠ 0) (hfd : m.fd = p.fd)
    (herr : Int.land p.revents (Int.lor POLLERR POLLNVAL) ≠ 0) :
    (micropoll env poll mp errno timeout).calls.filter (fun c => decide (c.slot = s)) =
      (if m.pollerr.fn ≠ 0 then
        [{ kind := cb_kind.pollerr, slot := s, fn := m.pollerr.fn, fd := m.fd,
           data := m.pollerr.data }] else []) ∧
    (∃ b, (micropoll_dispatch env { mp := mp, errno := pr.errno, calls := [] }
        (pre ++ [(p, s)])).mp.fd[s]? = some b ∧ b.set = 0) ∧
    (micropoll env poll mp errno timeout).calls =
      (micropoll_dispatch env { mp := mp, errno := pr.errno, calls := [] }
        (pre ++ [(p, s)])).calls ++
      (dispatch_sites env
        (micropoll_dispatch env { mp := mp, errno := pr.errno, calls := [] } (pre ++ [(p, s)]))
        post).map (fun c => c.inv) ∧
    ((∀ c ∈ dispatch_sites env
        (micropoll_dispatch env { mp := mp, errno := pr.errno, calls := [] } (pre ++ [(p, s)]))
        post, ¬ call_activates env s c) →
      ∃ b, (micropoll env poll mp errno timeout).mp.fd[s]? = some b ∧ b.set = 0) := by
  have hproj : micropoll_project mp.fd 0 ≠ [] :=
    entries_ne_nil _ pr.revents (by rw [hsplit]; simp)
  have hmp := micropoll_pos env poll mp errno timeout hproj (by rw [hpr]; exact hret)
  rw [hpr, hsplit] at hmp
  have hpw : ((pre ++ (p, s) :: post).map Prod.snd).Pairwise (· < ·) := by
    rw [← hsplit, entries_slots]
    exact (project_slots mp.fd 0).1
  have hstep := entry_error env _ p s m hreach hset hfd herr
  have hafter : ∃ b, (micropoll_dispatch env { mp := mp, errno := pr.errno, calls := [] }
      (pre ++ [(p, s)])).mp.fd[s]? = some b ∧ b.set = 0 := by
    rw [dispatch_append]
    show ∃ b, (micropoll_dispatch_entry env _ (p, s)).mp.fd[s]? = some b ∧ b.set = 0
    rw [hstep]
    exact pollerr_inactive env _ s m hlay hreach
  have hsp : pre ++ (p, s) :: post = (pre ++ [(p, s)]) ++ post := by simp
  refine ⟨?_, hafter, ?_, ?_⟩
  · rw [hmp]
    simp only
    rw [cycle_slot_calls env _ pre post p s _ hpw
      (by rw [hstep]; exact pollerr_calls env _ s m hreach)
      (by
        intro c hc
        split_ifs at hc
        · simp at hc; rw [hc]
        · simp at hc)]
    simp
  · rw [hmp]
    simp only
    rw [hsp, dispatch_append, dispatch_sites_calls]
  · intro hno
    rw [hmp]
    simp only
    rw [hsp, dispatch_append]
    exact dispatch_preserves_sites env (fun b => b.set = 0) s (fun _ _ => rfl) (fun _ h => h)
      (fun _ h => h) post _
      (fun c hc => layout_keeps env hlay (fun b => b.set = 0) s c
        (fun ⟨b, b', h1, h2, h3, h4⟩ => hno c hc ⟨b, b', h1, h2, h3, h4⟩))
      hafter

/-- Witness of C14 (amended): in `mp_gap` slot 0 is free, slot 1 holds
descriptor 3 with the error callback `(10, 0)` and slot 2 holds descriptor 4 with
the read handler 20, which registers descriptor 9.  `poll` reports `POLLERR` for
descriptor 3 and `POLLIN` for descriptor 4.  Only the error callback is invoked
for slot 1; the read handler of slot 2 runs later in the cycle and claims slot 0,
so it does not activate slot 1, which is inactive after the cycle. -/
theorem C14_error_precedence_witness :
    (micropoll env_accept (poll_list 2 0 [POLLERR, POLLIN]) mp_gap 0 100).calls.filter
        (fun c => decide (c.slot = 1)) =
      [{ kind := cb_kind.pollerr, slot := 1, fn := 10, fd := 3, data := 0 }] ∧
    (micropoll env_accept (poll_list 2 0 [POLLERR, POLLIN]) mp_gap 0 100).calls =
      [{ kind := cb_kind.pollerr, slot := 1, fn := 10, fd := 3, data := 0 },
       { kind := cb_kind.pollin, slot := 2, fn := 20, fd := 4, data := 0 }] ∧
    (∀ c ∈ dispatch_sites env_accept
        (micropoll_dispatch env_accept { mp := mp_gap, errno := 0, calls := [] }
          [({ fd := 3, events := 0, revents := POLLERR }, 1)])
        [({ fd := 4, events := POLLIN, revents := POLLIN }, 2)],
      call_activates env_accept 0 c ∧ ¬ call_activates env_accept 1 c) ∧
    (∃ b, (micropoll env_accept (poll_list 2 0 [POLLERR, POLLIN]) mp_gap 0 100).mp.fd[1]? =
      some b ∧ b.set = 0) :=
  ⟨(C14_error_precedence env_accept (poll_list 2 0 [POLLERR, POLLIN]) mp_gap 0 100
      { ret := 2, errno := 0, revents := [POLLERR, POLLIN] } []
      [({ fd := 4, events := POLLIN, revents := POLLIN }, 2)]
      { fd := 3, events := 0, revents := POLLERR } 1
      { fd_zero 4 with set := 1, fd := 3, pollerr := ⟨10, 0⟩ }
      env_accept_layout (by decide) (by decide) (by decide) (by decide) (by decide)
      (by decide) (by decide)).1,
   by decide,
   by decide,
   (C14_error_precedence env_accept (poll_list 2 0 [POLLERR, POLLIN]) mp_gap 0 100
      { ret := 2, errno := 0, revents := [POLLERR, POLLIN] } []
      [({ fd := 4, events := POLLIN, revents := POLLIN }, 2)]
      { fd := 3, events := 0, revents := POLLERR } 1
      { fd_zero 4 with set := 1, fd := 3, pollerr := ⟨10, 0⟩ }
      env_accept_layout (by decide) (by decide) (by decide) (by decide) (by decide)
      (by decide) (by decide)).2.2.2 (by decide)⟩



end Micropoll
